import Mathlib

/-!
Shallow embedding of the AArch64 query tools (`cpp_source/query_isa.cpp` and
`cpp_source/query_register.cpp`) of the `one_big_aarch64_db` repository.

Machine integers (`uint32_t`) are modelled as `Nat` with explicit `% 2^32`
where the C++ code truncates.  The static catalogs (`encoding_data.h`,
`register_data.h`) are generated data not present in the sources, so every
function is parameterised by the catalog it reads.  Standard output, standard
error and the process exit status are modelled explicitly.
-/

namespace AArch64DB

/-- Outcome of running one of the tools: exit status plus the text written to
the two output channels (each `std::endl` contributes a `"\n"`). -/
structure ExecResult where
  exitCode : Nat
  stdout : String
  stderr : String
deriving DecidableEq, Repr

/-- Decimal rendering of a natural number, as `std::to_string` / `operator<<`
produce for a non-negative int. -/
def decStr (n : Nat) : String := ⟨Nat.toDigits 10 n⟩

/-- Lower-case hexadecimal rendering, as `std::hex` produces. -/
def hexStr (n : Nat) : String := ⟨Nat.toDigits 16 n⟩

/-- Hexadecimal rendering padded with leading zeros to width 8, as
`std::setw(8) << std::setfill('0') << std::hex` produces. -/
def hex8 (n : Nat) : String :=
  ⟨List.replicate (8 - (Nat.toDigits 16 n).length) '0' ++ Nat.toDigits 16 n⟩

/-- Replace every occurrence of `pat` in `s` by `repl`, scanning left to
right.  This models the C++ idiom `while ((pos = s.find(pat)) != npos)
s.replace(pos, n, repl);` — the two agree because no replacement string used
by the tool ever contains (or creates) a fresh occurrence of any pattern. -/
def replaceAllFuel (pat repl : List Char) : Nat → List Char → List Char
  | _, [] => []
  | 0, l => l
  | fuel + 1, c :: rest =>
    if pat ≠ [] ∧ pat.isPrefixOf (c :: rest) then
      repl ++ replaceAllFuel pat repl fuel ((c :: rest).drop pat.length)
    else
      c :: replaceAllFuel pat repl fuel rest

/-- Entry point of the replacement loop; `l.length` units of fuel always
suffice because every step consumes at least one character of `l`. -/
def replaceAll (pat repl l : List Char) : List Char :=
  replaceAllFuel pat repl l.length l

/-- String wrapper for `replaceAll`. -/
def strReplaceAll (s pat repl : String) : String :=
  ⟨replaceAll pat.data repl.data s.data⟩

/-! ## Field extraction (`query_isa.cpp`, `build_assembly` lines 78–97)

`bit_fields` is the 32-entry label array of an encoding pattern, index `0`
being the most significant bit (bit 31).  Entries `"0"`/`"1"` are literal
bits; any other entry is a field label. -/

/-- The bit positions collected for label `l`:
`for (int i = 0; i < 32; i++) if (bit_fields[i] != "0" && bit_fields[i] != "1")
field_bits[field].push_back(31 - i);`. -/
def fieldPositions (bit_fields : List String) (l : String) : List Nat :=
  (List.range 32).filterMap fun i =>
    let f := bit_fields.getD i ""
    if f ≠ "0" ∧ f ≠ "1" ∧ f = l then some (31 - i) else none

/-- The distinct non-literal labels occurring in `bit_fields`, in first
encounter order (the key set of the C++ `std::map field_bits`). -/
def fieldLabels (bit_fields : List String) : List String :=
  ((List.range 32).filterMap fun i =>
    let f := bit_fields.getD i ""
    if f ≠ "0" ∧ f ≠ "1" then some f else none).dedup

/-- Lexicographic byte comparison, as `std::string::operator<=` performs. -/
def strLe : List Char → List Char → Bool
  | [], _ => true
  | _ :: _, [] => false
  | a :: as, b :: bs =>
    if a.toNat < b.toNat then true
    else if b.toNat < a.toNat then false
    else strLe as bs

/-- Insert a string into a sorted list of strings. -/
def insertSorted (s : String) : List String → List String
  | [] => [s]
  | t :: ts => if strLe s.data t.data then s :: t :: ts else t :: insertSorted s ts

/-- Sort a list of strings; `std::map` iterates its keys in this order. -/
def sortStrings (l : List String) : List String := l.foldr insertSorted []

/-- Value accumulation loop of `build_assembly`:
`for i in 0..bits.size()-1: if ((opcode >> bits[i]) & 1)
value |= (1 << (bits.size() - 1 - i));`
(the shift amount `bits.size() - 1 - i` is the number of bits still to be
processed after the current one, i.e. the length of the remaining list). -/
def fieldValueAux (opcode : Nat) : List Nat → Nat → Nat
  | [], v => v
  | b :: rest, v =>
    fieldValueAux opcode rest
      (if opcode.testBit b then v ||| (1 <<< rest.length) else v)

/-- Reconstructed integer value of the field whose collected bit positions are
`bits` (first collected bit gets the highest weight). -/
def fieldValue (opcode : Nat) (bits : List Nat) : Nat :=
  fieldValueAux opcode bits 0

/-- The operand buckets filled by the categorisation loop of `build_assembly`
(lines 99–121): register indices, the `imm` and `offs` buckets, the shift
flag, and the raw `CRm`/`op2` sub-fields. -/
structure ExtractState where
  rd : Option Nat := none
  rn : Option Nat := none
  rm : Option Nat := none
  rt : Option Nat := none
  imm : Option Nat := none
  offs : Option Nat := none
  sh : Option Nat := none
  crm : Option Nat := none
  op2 : Option Nat := none
deriving DecidableEq, Repr

/-- Prefix test, as `name.find("imm") == 0` performs. -/
def strStarts (name pre : String) : Bool := pre.data.isPrefixOf name.data

/-- One iteration of the categorisation chain of `build_assembly`. -/
def classifyField (st : ExtractState) (name : String) (value : Nat) : ExtractState :=
  if name = "Rd" then { st with rd := some value }
  else if name = "Rn" then { st with rn := some value }
  else if name = "Rm" then { st with rm := some value }
  else if name = "Rt" then { st with rt := some value }
  else if strStarts name "imm" then { st with imm := some value }
  else if strStarts name "off" ∨ name = "simm" then { st with offs := some value }
  else if name = "sh" then { st with sh := some value }
  else if name = "CRm" then { st with crm := some value }
  else if name = "op2" then { st with op2 := some value }
  else st

/-- Full extraction pass of `build_assembly`: iterate over the labels in
sorted order (the iteration order of the C++ `std::map field_bits`) and
classify each reconstructed field value. -/
def extractAll (opcode : Nat) (bit_fields : List String) : ExtractState :=
  (sortStrings (fieldLabels bit_fields)).foldl
    (fun st name => classifyField st name (fieldValue opcode (fieldPositions bit_fields name)))
    {}

/-- The `HINT` combination step (lines 123–126): if `CRm` and `op2` were both
extracted and no `imm` bucket was populated, set `imm = (CRm << 3) | op2`. -/
def applyCrmOp2 (st : ExtractState) : ExtractState :=
  if st.crm.isSome ∧ st.op2.isSome ∧ st.imm.isNone then
    { st with imm := some (((st.crm.getD 0) <<< 3) ||| st.op2.getD 0) }
  else st

/-! ## Template substitution (`build_assembly` lines 128–292) -/

/-- Rd placeholder block (lines 129–150).  `<Wt>` is also replaced here,
from the Rd value, when an `Rd` field was extracted. -/
def replaceRd (rd : Option Nat) (s : String) : String :=
  match rd with
  | none => s
  | some v =>
    let reg_str := if v = 31 then "sp" else "x" ++ decStr v
    let reg_str_w := if v = 31 then "wsp" else "w" ++ decStr v
    let s := strReplaceAll s "<Xd|SP>" reg_str
    let s := strReplaceAll s "<Xd>" reg_str
    let s := strReplaceAll s "<Wd|WSP>" reg_str_w
    let s := strReplaceAll s "<Wd>" reg_str_w
    strReplaceAll s "<Wt>" reg_str_w

/-- Rn placeholder block (lines 152–170). -/
def replaceRn (rn : Option Nat) (s : String) : String :=
  match rn with
  | none => s
  | some v =>
    let reg_str := if v = 31 then "sp" else "x" ++ decStr v
    let reg_str_w := if v = 31 then "wsp" else "w" ++ decStr v
    let s := strReplaceAll s "<Xn|SP>" reg_str
    let s := strReplaceAll s "<Xn>" reg_str
    let s := strReplaceAll s "<Wn|WSP>" reg_str_w
    strReplaceAll s "<Wn>" reg_str_w

/-- Rm placeholder block (lines 172–187): no special case for index 31. -/
def replaceRm (rm : Option Nat) (s : String) : String :=
  match rm with
  | none => s
  | some v =>
    let reg_str := "x" ++ decStr v
    let reg_str_w := "w" ++ decStr v
    let s := strReplaceAll s "<Xm>" reg_str
    let s := strReplaceAll s "<R><m>" reg_str
    strReplaceAll s "<Wm>" reg_str_w

/-- Rt placeholder block (lines 189–201): no special case for index 31. -/
def replaceRt (rt : Option Nat) (s : String) : String :=
  match rt with
  | none => s
  | some v =>
    let reg_str := "x" ++ decStr v
    let reg_str_w := "w" ++ decStr v
    let s := strReplaceAll s "<Xt>" reg_str
    strReplaceAll s "<Wt>" reg_str_w

/-- The four register blocks in program order. -/
def replaceRegisters (st : ExtractState) (s : String) : String :=
  replaceRt st.rt (replaceRm st.rm (replaceRn st.rn (replaceRd st.rd s)))

/-- Immediate replacement (lines 203–220): `#<imm>` first, then `<imm>`. -/
def replaceImm (imm : Option Nat) (s : String) : String :=
  match imm with
  | none => s
  | some v =>
    let s := strReplaceAll s "#<imm>" ("#0x" ++ hexStr v)
    strReplaceAll s "<imm>" ("0x" ++ hexStr v)

/-- Offset replacement (lines 222–234). -/
def replaceOffs (offs : Option Nat) (s : String) : String :=
  match offs with
  | none => s
  | some v =>
    let s := strReplaceAll s "<offs>" ("0x" ++ hexStr v)
    strReplaceAll s "<simm>" ("0x" ++ hexStr v)

/-- Shift handling (lines 236–256). -/
def applyShift (sh : Option Nat) (s : String) : String :=
  match sh with
  | none => s
  | some v =>
    if v = 0 then strReplaceAll s "\x7b, <shift>\x7d" ""
    else
      let s := strReplaceAll s "<shift>" "lsl #12"
      let s := strReplaceAll s "\x7b, " ", "
      strReplaceAll s "\x7d" ""

/-- Removal of leftover optional fragments (lines 258–268). -/
def cleanupOptional (s : String) : String :=
  let s := strReplaceAll s "\x7b, <shift>\x7d" ""
  let s := strReplaceAll s "\x7b, <extend> \x7b#<amount>\x7d\x7d" ""
  strReplaceAll s "\x7b, <shift> #<amount>\x7d" ""

/-- Whitespace normalisation loop (lines 270–289): split on spaces, join the
nonempty words with single spaces. -/
def collapseSpacesAux : List Char → List Char → List Char → Bool → List Char
  | [], acc, word, first =>
    if word = [] then acc else acc ++ (if first then [] else [' ']) ++ word
  | c :: rest, acc, word, first =>
    if c = ' ' then
      if word = [] then collapseSpacesAux rest acc [] first
      else collapseSpacesAux rest (acc ++ (if first then [] else [' ']) ++ word) [] false
    else collapseSpacesAux rest acc (word ++ [c]) first

/-- String wrapper for the whitespace normalisation. -/
def collapseSpaces (s : String) : String := ⟨collapseSpacesAux s.data [] [] true⟩

/-- `build_assembly`: extraction, bucket categorisation, `CRm`/`op2`
combination, placeholder substitution, cleanup and whitespace collapse. -/
def build_assembly (asm_template : String) (opcode : Nat) (bit_fields : List String) : String :=
  let st := applyCrmOp2 (extractAll opcode bit_fields)
  collapseSpaces (cleanupOptional (applyShift st.sh
    (replaceOffs st.offs (replaceImm st.imm (replaceRegisters st asm_template)))))

/-! ## Pattern matching (`query_by_opcode`, lines 294–327) -/

/-- One record of the encoding catalog (`encoding_data.h`). -/
structure EncodingPattern where
  fixed_mask : Nat
  fixed_bits : Nat
  bit_fields : List String
  asm_template : String
deriving DecidableEq, Repr

/-- The match test of line 315: `(opcode & enc.fixed_mask) == enc.fixed_bits`. -/
def encMatches (opcode : Nat) (e : EncodingPattern) : Bool :=
  (opcode &&& e.fixed_mask) == e.fixed_bits

/-- Body of the scan loop of `query_by_opcode` (lines 311–320): the state is
the text printed so far plus the `found` flag. -/
def encStep (opcode : Nat) (st : String × Bool) (e : EncodingPattern) : String × Bool :=
  if encMatches opcode e then
    (st.1 ++ build_assembly e.asm_template opcode e.bit_fields ++ "\n", true)
  else st

/-- `query_by_opcode`: scan every encoding array in order, print the rendered
assembly of every matching pattern, and print a diagnostic to stderr when no
pattern matched.  Returns `(stdout, stderr)`. -/
def query_by_opcode (arrays : List (List EncodingPattern)) (opcode : Nat) : String × String :=
  let r := arrays.foldl (fun st encs => encs.foldl (encStep opcode) st) ("", false)
  (r.1, if r.2 then ""
        else "No matching instruction found for opcode: 0x" ++ hex8 opcode ++ "\n")

/-! ## Opcode parsing (`parse_opcode`, lines 21–45)

The C++ calls `std::stoul`, whose semantics (on LP64: 64-bit
`unsigned long`) are modelled here: skip leading whitespace, accept an
optional sign, for base 16 accept an optional `0x` prefix when a hex digit
follows, then consume the longest run of valid digits; no valid digit throws
`std::invalid_argument` (uncaught in this program), a magnitude above
`2^64 - 1` throws `std::out_of_range` (uncaught), and a negative sign wraps
modulo `2^64`.  The returned `unsigned long` is then truncated to `uint32_t`
by the assignment in `parse_opcode`. -/

/-- `isspace` of the C locale. -/
def isspaceC (c : Char) : Bool :=
  c = ' ' || c = '\t' || c = '\n' || c = '\x0b' || c = '\x0c' || c = '\r'

/-- Numeric value of a digit character in bases up to 16 (99 when invalid). -/
def digitVal (c : Char) : Nat :=
  if 48 ≤ c.toNat ∧ c.toNat ≤ 57 then c.toNat - 48
  else if 97 ≤ c.toNat ∧ c.toNat ≤ 102 then c.toNat - 87
  else if 65 ≤ c.toNat ∧ c.toNat ≤ 70 then c.toNat - 55
  else 99

/-- Is `c` a valid digit in the given base? -/
def isBaseDigit (base : Nat) (c : Char) : Bool := digitVal c < base

/-- Result of `std::stoul`. -/
inductive StoulOutcome where
  | val (v : Nat)
  | invalidArgument
  | outOfRange
deriving DecidableEq, Repr

/-- Model of `std::stoul(s, nullptr, base)` on LP64. -/
def stoulModel (s : List Char) (base : Nat) : StoulOutcome :=
  let s1 := s.dropWhile isspaceC
  let signed := match s1 with
    | '+' :: r => (false, r)
    | '-' :: r => (true, r)
    | _ => (false, s1)
  let s2 := signed.2
  let s3 := match base, s2 with
    | 16, '0' :: c :: r =>
      if (c = 'x' ∨ c = 'X') ∧ isBaseDigit 16 (r.headD ' ') then r else s2
    | _, _ => s2
  let digits := s3.takeWhile (isBaseDigit base)
  if digits = [] then .invalidArgument
  else
    let v := digits.foldl (fun a c => base * a + digitVal c) 0
    if v > 2 ^ 64 - 1 then .outOfRange
    else .val (if signed.1 then (2 ^ 64 - v % 2 ^ 64) % 2 ^ 64 else v)

/-- Outcome of `parse_opcode`: a parsed `uint32_t` value, the handled
bad-prefix diagnostic (`exit(1)`), or an uncaught `std::stoul` exception. -/
inductive ParseOutcome where
  | ok (value : Nat)
  | prefixError
  | stoulInvalidArgument
  | stoulOutOfRange
deriving DecidableEq, Repr

/-- `parse_opcode`: strip `_`/`:` separators, require a `0x`/`0X`/`0b`/`0B`
prefix, parse the remainder with `std::stoul` and truncate to 32 bits. -/
def parse_opcode (opcode_str : String) : ParseOutcome :=
  let cleaned := opcode_str.data.filter fun c => c ≠ '_' ∧ c ≠ ':'
  let p2 := cleaned.take 2
  if p2 = ['0', 'x'] ∨ p2 = ['0', 'X'] then
    match stoulModel (cleaned.drop 2) 16 with
    | .val v => .ok (v % 2 ^ 32)
    | .invalidArgument => .stoulInvalidArgument
    | .outOfRange => .stoulOutOfRange
  else if p2 = ['0', 'b'] ∨ p2 = ['0', 'B'] then
    match stoulModel (cleaned.drop 2) 2 with
    | .val v => .ok (v % 2 ^ 32)
    | .invalidArgument => .stoulInvalidArgument
    | .outOfRange => .stoulOutOfRange
  else .prefixError

/-- Help text of `print_usage` in `query_isa.cpp`. -/
def isaUsageText : String :=
  "Usage: query_isa --op <OPCODE>\n\n" ++
  "Decode AArch64 instruction opcode to ARM Assembler notation\n\n" ++
  "Options:\n" ++
  "  --op <OPCODE>    Decode opcode (format: 0xHEX or 0bBINARY)\n" ++
  "  --help           Show this help message\n\n" ++
  "Examples:\n" ++
  "  query_isa --op 0x91000000\n" ++
  "  query_isa --op 0x91_00_00_00              # With separators\n" ++
  "  query_isa --op 0b10010001000000000000000000000000\n\n" ++
  "Separator characters (optional):\n" ++
  "  '_' or ':' can be used as 8-bit separators\n"

/-- `main` of `query_isa.cpp` (lines 347–375), on the argument vector after
the program name.  `none` models process death by an uncaught `std::stoul`
exception; the bad-prefix diagnostic and `exit(1)` issued inside
`parse_opcode` surface here as an `ExecResult`. -/
def isa_main (arrays : List (List EncodingPattern)) (args : List String) :
    Option ExecResult :=
  match args with
  | [] => some ⟨1, isaUsageText, ""⟩
  | arg1 :: rest =>
    if arg1 = "--help" ∨ arg1 = "-h" then some ⟨0, isaUsageText, ""⟩
    else if arg1 = "--op" then
      match rest with
      | [] => some ⟨1, "", "Error: --op requires an opcode argument\n"⟩
      | opcode_str :: _ =>
        match parse_opcode opcode_str with
        | .ok v =>
          let r := query_by_opcode arrays v
          some ⟨0, r.1, r.2⟩
        | .prefixError =>
          some ⟨1, "", "Error: Opcode must start with 0x (hex) or 0b (binary)\n"⟩
        | .stoulInvalidArgument => none
        | .stoulOutOfRange => none
    else some ⟨1, isaUsageText, "Error: Unknown option: " ++ arg1 ++ "\n"⟩

/-! ## Register query tool (`query_register.cpp`)

`main` forwards `--reg <QUERY> [--json]` to `run_register_query` and returns
its value as the process exit status, so `run_register_query` models the
whole observable behaviour of the tool. -/

/-- One row of the static field table (`register_data.h`). -/
structure RegisterField where
  field_name : String
  field_msb : Nat
  field_lsb : Nat
  field_position : String
  field_definition : String
deriving DecidableEq, Repr

/-- One register of the static table: feature string plus its ordered field
list (sorted by msb descending at generation time). -/
structure RegisterInfo where
  feature_name : String
  fields : List RegisterField
deriving DecidableEq, Repr

/-- The two static tables consumed by `query_register.cpp`:
`REGISTER_DATABASE` and `DEFINITION_TO_FIELDS` (generated data, modelled as
association lists with unique keys; `std::map::find` is key lookup). -/
structure RegCatalog where
  registers : List (String × RegisterInfo)
  defToFields : List (String × List (String × String))
deriving DecidableEq, Repr

/-- The closed keyword set `ALLOWED_DEFS` (line 17). -/
def ALLOWED_DEFS : List String :=
  ["RES0", "RES1", "UNPREDICTABLE", "UNDEFINED", "RAO", "UNKNOWN"]

/-- Escape of one character in `escape_json`. -/
def escChar (c : Char) : List Char :=
  if c = '"' then ['\\', '"']
  else if c = '\\' then ['\\', '\\']
  else if c = '\x08' then ['\\', 'b']
  else if c = '\x0c' then ['\\', 'f']
  else if c = '\n' then ['\\', 'n']
  else if c = '\r' then ['\\', 'r']
  else if c = '\t' then ['\\', 't']
  else if c.toNat < 0x20 then '\\' :: 'u' :: Nat.toDigits 16 c.toNat
  else [c]

/-- `escape_json` (lines 19–39). -/
def escape_json (s : String) : String :=
  ⟨s.data.foldr (fun c acc => escChar c ++ acc) []⟩

/-- `REGISTER_DATABASE.find(name)`. -/
def lookupReg (cat : RegCatalog) (name : String) : Option RegisterInfo :=
  (cat.registers.find? fun p => p.1 = name).map (·.2)

/-- `DEFINITION_TO_FIELDS.find(def)`. -/
def lookupDef (cat : RegCatalog) (d : String) : Option (List (String × String)) :=
  (cat.defToFields.find? fun p => p.1 = d).map (·.2)

/-- `run_fielddef_query` (lines 41–65). -/
def run_fielddef_query (cat : RegCatalog) (d : String) (json_out : Bool) : ExecResult :=
  match lookupDef cat d with
  | none => ⟨1, "", "Error: No fields found with definition '" ++ d ++ "'\n"⟩
  | some entries =>
    if json_out then
      ⟨0, "[" ++ String.intercalate ",\n" (entries.map fun e =>
            "\x7b\"register_name\":\"" ++ escape_json e.1 ++
            "\",\"field_name\":\"" ++ escape_json e.2 ++ "\"\x7d") ++ "]\n", ""⟩
    else
      ⟨0, String.join (entries.map fun e => e.1 ++ "." ++ e.2 ++ "\n"), ""⟩

/-! ### The three query grammars (lines 80–82)

`dot_bracket = ^([A-Z0-9_<>]+)\.([A-Z0-9_]+)\[(\d+)(?::(\d+))?\]$`,
`dot_only    = ^([A-Z0-9_<>]+)\.([A-Z0-9_]+)$`,
`bracket     = ^([A-Z0-9_<>]+)(?:\[(\d+)(?::(\d+))?\])?$`.
Each character class excludes the delimiter that follows it, so greedy
maximal-munch parsing is exactly `std::regex_match`. -/

/-- The class `[A-Z0-9_<>]` (codepoint ranges of the regex class). -/
def isRegChar (c : Char) : Bool :=
  decide ((65 ≤ c.toNat ∧ c.toNat ≤ 90) ∨ (48 ≤ c.toNat ∧ c.toNat ≤ 57) ∨
    c.toNat = 95 ∨ c.toNat = 60 ∨ c.toNat = 62)

/-- The class `[A-Z0-9_]`. -/
def isFieldChar (c : Char) : Bool :=
  decide ((65 ≤ c.toNat ∧ c.toNat ≤ 90) ∨ (48 ≤ c.toNat ∧ c.toNat ≤ 57) ∨ c.toNat = 95)

/-- The class `\d`, i.e. `[0-9]`. -/
def isDigitChar (c : Char) : Bool := decide (48 ≤ c.toNat ∧ c.toNat ≤ 57)

/-- Lowercase ASCII letter (`a`–`z`). -/
def isLowerAscii (c : Char) : Bool := decide (97 ≤ c.toNat ∧ c.toNat ≤ 122)

/-- Take a nonempty maximal run of class characters. -/
def takeClass (p : Char → Bool) (l : List Char) : Option (List Char × List Char) :=
  let t := l.takeWhile p
  if t = [] then none else some (t, l.dropWhile p)

/-- Consume one expected literal character. -/
def expectChar (ch : Char) : List Char → Option (List Char)
  | c :: rest => if c = ch then some rest else none
  | [] => none

/-- Numeric value of a `\d+` capture: what `std::stoi` returns when it
succeeds.  `std::stoi` itself is not total on these captures — it throws
`std::out_of_range` for values above `INT_MAX`, and `run_register_query`
calls it with no try/catch in scope, so that throw kills the process; the
abort path is modelled at the dispatch in `run_register_query_process`,
gated on this value. -/
def parseNat (ds : List Char) : Nat :=
  ds.foldl (fun a c => 10 * a + (c.toNat - 48)) 0

/-- Full match of the `dot_bracket` grammar; on success `(REG, FIELD, high,
low)` with `low` defaulted to `high` when the `:(\d+)` group is absent. -/
def matchDotBracket (l : List Char) : Option (String × String × Nat × Nat) :=
  match takeClass isRegChar l with
  | none => none
  | some (reg, r1) =>
    match expectChar '.' r1 with
    | none => none
    | some r2 =>
      match takeClass isFieldChar r2 with
      | none => none
      | some (fld, r3) =>
        match expectChar '[' r3 with
        | none => none
        | some r4 =>
          match takeClass isDigitChar r4 with
          | none => none
          | some (d1, r5) =>
            match expectChar ':' r5 with
            | some r6 =>
              match takeClass isDigitChar r6 with
              | none => none
              | some (d2, r7) =>
                match expectChar ']' r7 with
                | none => none
                | some r8 =>
                  if r8 = [] then some (⟨reg⟩, ⟨fld⟩, parseNat d1, parseNat d2) else none
            | none =>
              match expectChar ']' r5 with
              | none => none
              | some r6 =>
                if r6 = [] then some (⟨reg⟩, ⟨fld⟩, parseNat d1, parseNat d1) else none

/-- Full match of the `dot_only` grammar. -/
def matchDotOnly (l : List Char) : Option (String × String) :=
  match takeClass isRegChar l with
  | none => none
  | some (reg, r1) =>
    match expectChar '.' r1 with
    | none => none
    | some r2 =>
      match takeClass isFieldChar r2 with
      | none => none
      | some (fld, r3) => if r3 = [] then some (⟨reg⟩, ⟨fld⟩) else none

/-- Full match of the `bracket` grammar; `none` in the second component when
the whole bracket group is absent. -/
def matchBracket (l : List Char) : Option (String × Option (Nat × Nat)) :=
  match takeClass isRegChar l with
  | none => none
  | some (reg, r1) =>
    if r1 = [] then some (⟨reg⟩, none)
    else
      match expectChar '[' r1 with
      | none => none
      | some r2 =>
        match takeClass isDigitChar r2 with
        | none => none
        | some (d1, r3) =>
          match expectChar ':' r3 with
          | some r4 =>
            match takeClass isDigitChar r4 with
            | none => none
            | some (d2, r5) =>
              match expectChar ']' r5 with
              | none => none
              | some r6 =>
                if r6 = [] then some (⟨reg⟩, some (parseNat d1, parseNat d2)) else none
          | none =>
            match expectChar ']' r3 with
            | none => none
            | some r4 =>
              if r4 = [] then some (⟨reg⟩, some (parseNat d1, parseNat d1)) else none

/-- The whitespace trim of lines 71–72. -/
def trimC (l : List Char) : List Char :=
  ((l.dropWhile isspaceC).reverse.dropWhile isspaceC).reverse

/-- The overlap test of the bit-range lookup (line 178):
`fld.field_lsb <= end && fld.field_msb >= start`. -/
def overlapTest (start stop : Nat) (f : RegisterField) : Bool :=
  decide (f.field_lsb ≤ stop) && decide (f.field_msb ≥ start)

/-- The `dot_bracket` branch of `run_register_query` (lines 85–123):
verified field-range lookup. -/
def dotBracketBranch (cat : RegCatalog) (reg fld : String) (high low : Nat)
    (json_out : Bool) : ExecResult :=
  let start := min high low
  let stop := max high low
  match lookupReg cat reg with
  | none => ⟨1, "", "Error: Register '" ++ reg ++ "' not found in database.\n"⟩
  | some info =>
    match info.fields.find? (fun f =>
        f.field_name == fld && f.field_msb == stop && f.field_lsb == start) with
    | some f =>
      if json_out then
        ⟨0, "\x7b\"register_name\":\"" ++ escape_json reg ++ "\"," ++
            "\"field_name\":\"" ++ escape_json fld ++ "\"," ++
            "\"field_position\":\"" ++ escape_json f.field_position ++ "\"," ++
            "\"field_definition\":\"" ++ escape_json f.field_definition ++ "\"\x7d\n", ""⟩
      else
        ⟨0, "Register: " ++ reg ++ "\n" ++
            "Field Name: " ++ fld ++ "\n" ++
            "Field Position: " ++ f.field_position ++ "\n", ""⟩
    | none =>
      ⟨1, "", "Error: Field '" ++ fld ++ "' exists but not at bit range [" ++
          decStr stop ++ ":" ++ decStr start ++ "] or not found.\n"⟩

/-- The `dot_only` branch of `run_register_query` (lines 125–160):
field-by-name lookup, first hit in stored order. -/
def dotOnlyBranch (cat : RegCatalog) (reg fld : String) (json_out : Bool) : ExecResult :=
  match lookupReg cat reg with
  | none => ⟨1, "", "Error: Register '" ++ reg ++ "' not found in database.\n"⟩
  | some info =>
    match info.fields.find? (fun f => f.field_name == fld) with
    | none =>
      ⟨1, "", "Error: Field '" ++ fld ++ "' not found in register '" ++ reg ++ "'\n"⟩
    | some f =>
      if json_out then
        ⟨0, "\x7b\"register_name\":\"" ++ escape_json reg ++ "\"," ++
            "\"field_name\":\"" ++ escape_json fld ++ "\"," ++
            "\"field_position\":\"" ++ escape_json f.field_position ++ "\"\x7d\n", ""⟩
      else
        ⟨0, "Register: " ++ reg ++ "\n" ++
            "Field Name: " ++ fld ++ "\n" ++
            "Field Position: " ++ f.field_position ++ "\n", ""⟩

/-- The bit-range arm of the `bracket` branch (lines 162–223): overlap
lookup over the normalized range. -/
def bracketRangeBranch (cat : RegCatalog) (reg : String) (high low : Nat)
    (json_out : Bool) : ExecResult :=
  let start := min high low
  let stop := max high low
  match lookupReg cat reg with
  | none => ⟨1, "", "Error: Register '" ++ reg ++ "' not found in database.\n"⟩
  | some info =>
    match info.fields.filter (overlapTest start stop) with
    | [] =>
      ⟨1, "", "Error: No fields found for bit range [" ++ decStr stop ++ ":" ++
          decStr start ++ "] in register '" ++ reg ++ "'\n"⟩
    | f0 :: fs =>
      if start = stop then
        if json_out then
          ⟨0, "\x7b\"register_name\":\"" ++ escape_json reg ++ "\"," ++
              "\"bit_position\":\"" ++ decStr start ++ "\"," ++
              "\"field_name\":\"" ++ escape_json f0.field_name ++
              "\",\"field_position\":\"" ++ escape_json f0.field_position ++ "\"\x7d\n", ""⟩
        else
          ⟨0, "Register: " ++ reg ++ "\n" ++
              "Bit Position: [" ++ decStr start ++ "]\n" ++
              "Field Name: " ++ f0.field_name ++ "\n", ""⟩
      else
        if json_out then
          ⟨0, "\x7b\"register_name\":\"" ++ escape_json reg ++ "\"," ++
              "\"bit_start\":\"" ++ decStr start ++ "\"," ++
              "\"bit_end\":\"" ++ decStr stop ++ "\"," ++
              "\"fields\": [" ++
              String.intercalate "," ((f0 :: fs).map fun f =>
                "\x7b\"name\":\"" ++ escape_json f.field_name ++
                "\",\"position\":\"" ++ escape_json f.field_position ++ "\"\x7d") ++
              "]\x7d\n", ""⟩
        else
          ⟨0, "Register: " ++ reg ++ "\n" ++
              "Bit Range: [" ++ decStr stop ++ ":" ++ decStr start ++ "]\n" ++
              String.join ((f0 :: fs).map fun f =>
                "  " ++ f.field_position ++ "  " ++ f.field_name ++ "\n"), ""⟩

/-- The whole-register arm of the `bracket` branch (lines 224–254). -/
def wholeRegisterBranch (cat : RegCatalog) (reg : String) (json_out : Bool) : ExecResult :=
  match lookupReg cat reg with
  | none => ⟨1, "", "Error: Register '" ++ reg ++ "' not found in database.\n"⟩
  | some info =>
    if json_out then
      ⟨0, "\x7b\"register_name\":\"" ++ escape_json reg ++ "\"," ++
          "\"features\":\"" ++ escape_json info.feature_name ++ "\"," ++
          "\"fields\": [" ++
          String.intercalate "," (info.fields.map fun f =>
            "\x7b\"name\":\"" ++ escape_json f.field_name ++
            "\",\"position\":\"" ++ escape_json f.field_position ++ "\"\x7d") ++
          "]\x7d\n", ""⟩
    else
      ⟨0, "Register: " ++ reg ++ "\n" ++
          "Features: " ++ info.feature_name ++ "\n" ++
          "Fields:\n" ++
          String.join (info.fields.map fun f =>
            "  " ++ f.field_position ++ "  " ++ f.field_name ++ "\n"), ""⟩

/-- `run_register_query` (lines 67–259): trim, keyword dispatch, then the
three grammars in priority order, else the invalid-format diagnostic.  This
is the function's value on queries whose matched bit indices fit in `int`;
`run_register_query_process` below adds the `std::stoi` abort path for the
remaining queries. -/
def run_register_query (cat : RegCatalog) (query : String) (json_out : Bool) :
    ExecResult :=
  let q := trimC query.data
  if (⟨q⟩ : String) ∈ ALLOWED_DEFS then run_fielddef_query cat ⟨q⟩ json_out
  else match matchDotBracket q with
  | some (reg, fld, high, low) => dotBracketBranch cat reg fld high low json_out
  | none =>
  match matchDotOnly q with
  | some (reg, fld) => dotOnlyBranch cat reg fld json_out
  | none =>
  match matchBracket q with
  | some (reg, some (high, low)) => bracketRangeBranch cat reg high low json_out
  | some (reg, none) => wholeRegisterBranch cat reg json_out
  | none => ⟨1, "", "Error: Invalid query format: '" ++ query ++ "'\n"⟩

/-- `INT_MAX` on the target platform: `std::stoi` accepts a `\d+` capture up
to this value and throws `std::out_of_range` above it. -/
def stoiMax : Nat := 2147483647

/-- Process-level model of the register tool: lines 67–259 together with the
abort behaviour of the `std::stoi` calls at lines 88–89 and 165–166.  The
`\d+` captures of a successful `regex_match` are converted with `std::stoi`
before the catalog is consulted, inside a function with no try/catch, so a
matched bit index whose value exceeds `INT_MAX` terminates the process
through an uncaught `std::out_of_range` (`none`); every other query
completes normally with `run_register_query`'s result. -/
def run_register_query_process (cat : RegCatalog) (query : String)
    (json_out : Bool) : Option ExecResult :=
  let q := trimC query.data
  if (⟨q⟩ : String) ∈ ALLOWED_DEFS then some (run_fielddef_query cat ⟨q⟩ json_out)
  else match matchDotBracket q with
  | some (reg, fld, high, low) =>
    if high ≤ stoiMax ∧ low ≤ stoiMax then
      some (dotBracketBranch cat reg fld high low json_out)
    else none
  | none =>
  match matchDotOnly q with
  | some (reg, fld) => some (dotOnlyBranch cat reg fld json_out)
  | none =>
  match matchBracket q with
  | some (reg, some (high, low)) =>
    if high ≤ stoiMax ∧ low ≤ stoiMax then
      some (bracketRangeBranch cat reg high low json_out)
    else none
  | some (reg, none) => some (wholeRegisterBranch cat reg json_out)
  | none => some ⟨1, "", "Error: Invalid query format: '" ++ query ++ "'\n"⟩

/-! ## Concrete data for evaluations

Small catalogs in the shape of the generated tables, mirroring the
registers and encodings used by the repository's documented examples. -/

/-- Sample register catalog: the documented `HCR_EL2` examples (`SWIO` at
`[1:1]`, `TGE` at `[27:27]`).  `TGE` is a field name, not a register name. -/
def sampleCat : RegCatalog :=
  { registers := [("HCR_EL2",
      { feature_name := "FEAT_AA64",
        fields := [ { field_name := "RES0", field_msb := 63, field_lsb := 34,
                      field_position := "[63:34]", field_definition := "RES0" },
                    { field_name := "TGE", field_msb := 27, field_lsb := 27,
                      field_position := "[27:27]", field_definition := "" },
                    { field_name := "SWIO", field_msb := 1, field_lsb := 1,
                      field_position := "[1:1]", field_definition := "RES1" },
                    { field_name := "VM", field_msb := 0, field_lsb := 0,
                      field_position := "[0:0]", field_definition := "" } ] })],
    defToFields := [("RES0", [("HCR_EL2", "RES0")])] }

/-- Catalog in which register `R` has a field named `B`, but at `[3:3]`
rather than `[2:2]` (the range-mismatch case of claim C5). -/
def catRangeMismatch : RegCatalog :=
  { registers := [("R",
      { feature_name := "",
        fields := [ { field_name := "B", field_msb := 3, field_lsb := 3,
                      field_position := "[3:3]", field_definition := "" } ] })],
    defToFields := [] }

/-- Catalog in which register `R` has no field named `B` at all (the
name-missing case of claim C5). -/
def catNameMissing : RegCatalog :=
  { registers := [("R",
      { feature_name := "",
        fields := [ { field_name := "A", field_msb := 2, field_lsb := 2,
                      field_position := "[2:2]", field_definition := "" } ] })],
    defToFields := [] }

/-- Catalog in which register `R` has two fields that both occupy bit 31
(the single-bit aliasing case of claim C7; overlapping single-bit field rows
occur in the repository's own generated database). -/
def catAliasedBit : RegCatalog :=
  { registers := [("R",
      { feature_name := "",
        fields := [ { field_name := "A", field_msb := 31, field_lsb := 31,
                      field_position := "[31:31]", field_definition := "" },
                    { field_name := "B", field_msb := 31, field_lsb := 31,
                      field_position := "[31:31]", field_definition := "" } ] })],
    defToFields := [] }

/-- An encoding pattern that opcode `0` does not match (bit 0 fixed to 1). -/
def unmatchableEnc : EncodingPattern :=
  { fixed_mask := 0xffffffff, fixed_bits := 1,
    bit_fields := List.replicate 31 "0" ++ ["1"], asm_template := "X" }

/-- Bit labels with `Rd` at bits 4:0 and `Rt` at bits 9:5 (claim C9's
scenario: both an `Rd` and an `Rt` field are extracted). -/
def c9BitFields : List String :=
  List.replicate 22 "0" ++ ["Rt", "Rt", "Rt", "Rt", "Rt", "Rd", "Rd", "Rd", "Rd", "Rd"]

/-- Bit labels of the `HINT` encoding: fixed prefix, `CRm` at bits 11:8,
`op2` at bits 7:5, fixed `11111` suffix. -/
def hintBitFields : List String :=
  ["1","1","0","1","0","1","0","1","0","0","0","0","0","0","1","1","0","0","1","0",
   "CRm","CRm","CRm","CRm","op2","op2","op2","1","1","1","1","1"]

/-! ## Claim theorems -/

/-- Claim C3 (code bug): the C++ register tool performs no global field-name
search.  `TGE` is not a register name in the catalog but is the name of a
field of `HCR_EL2`; instead of returning the `(register, field)` pairs with
that field name, `run_register_query` fails with the register-not-found
diagnostic and exit status 1. -/
theorem run_register_query_no_global_field_search :
    run_register_query sampleCat "TGE" false =
      ⟨1, "", "Error: Register 'TGE' not found in database.\n"⟩ ∧
    lookupReg sampleCat "TGE" = none ∧
    (∃ p ∈ sampleCat.registers, ∃ f ∈ p.2.fields, f.field_name = "TGE") := by
  refine ⟨by decide, by decide, ?_⟩
  exact ⟨("HCR_EL2", (sampleCat.registers.get ⟨0, by decide⟩).2), by decide,
    (sampleCat.registers.get ⟨0, by decide⟩).2.fields.get ⟨1, by decide⟩, by decide, by decide⟩

/-- Claim C4 (code bug): `parse_opcode` does not reject out-of-range values
or invalid trailing digits.  `0x123456789` does not fit in 32 bits yet parses
successfully, silently truncated to `0x23456789`; `0x12G3` contains a
character invalid for base 16 yet parses successfully as `0x12`, ignoring the
trailing characters; and a digit string with no valid digit at all terminates
the process through an uncaught `std::invalid_argument` instead of a handled
diagnostic. -/
theorem parse_opcode_silently_truncates :
    parse_opcode "0x123456789" = .ok 0x23456789 ∧
    parse_opcode "0x12G3" = .ok 0x12 ∧
    parse_opcode "0xZZ" = .stoulInvalidArgument := by
  decide

/-- Claim C5 counterexample: the two failure cases that the claim requires to
be distinct — field name present at a different range, and field name absent
altogether — produce byte-identical outcomes (same exit status, same single
combined diagnostic), so they are not separately identifiable. -/
theorem field_range_and_not_found_indistinguishable :
    run_register_query catRangeMismatch "R.B[2:2]" false =
      run_register_query catNameMissing "R.B[2:2]" false ∧
    run_register_query catRangeMismatch "R.B[2:2]" false =
      ⟨1, "", "Error: Field 'B' exists but not at bit range [2:2] or not found.\n"⟩ ∧
    (∃ f ∈ (catRangeMismatch.registers.get ⟨0, by decide⟩).2.fields, f.field_name = "B") ∧
    (∀ f ∈ (catNameMissing.registers.get ⟨0, by decide⟩).2.fields, f.field_name ≠ "B") := by
  decide

/-- Claim C6 counterexample: a decode in which zero patterns match emits the
`OpcodeNoMatch` diagnostic on the error channel but still completes with exit
status 0 (`main` returns 0 unconditionally on the `--op` path), contradicting
the claimed non-zero completion status for every error kind. -/
theorem opcode_no_match_exits_zero :
    isa_main [[unmatchableEnc]] ["--op", "0x0"] =
      some ⟨0, "", "No matching instruction found for opcode: 0x00000000\n"⟩ := by
  decide

/-- Claim C7 counterexample: on a register with two fields occupying bit 31,
the single-bit query `R[31:31]` does not return every field satisfying the
overlap test — the overlap filter selects both fields, but the single-bit
arm (lines 188–199) prints only `matching_fields[0]`, so the aliased field
`B` is silently dropped from the output. -/
theorem single_bit_query_first_field_only :
    run_register_query catAliasedBit "R[31:31]" false =
      ⟨0, "Register: R\nBit Position: [31]\nField Name: A\n", ""⟩ ∧
    (catAliasedBit.registers.get ⟨0, by decide⟩).2.fields.filter
      (overlapTest 31 31) = (catAliasedBit.registers.get ⟨0, by decide⟩).2.fields ∧
    ((catAliasedBit.registers.get ⟨0, by decide⟩).2.fields.filter
      (overlapTest 31 31)).length = 2 := by
  decide

/-- Claim C9 counterexample: with an `Rd` field extracted (value 31) and an
`Rt` field extracted (value 0), the template `<Wt>` renders as `wsp` — the
`Rd` replacement block consumes `<Wt>` with the stack-pointer special case —
whereas the claim requires the `<Wt>` placeholder to render the `Rt` index
without any special case (here `w0`). -/
theorem wt_placeholder_special_cased :
    build_assembly "<Wt>" 31 c9BitFields = "wsp" ∧
    fieldValue 31 (fieldPositions c9BitFields "Rt") = 0 ∧
    fieldValue 31 (fieldPositions c9BitFields "Rd") = 31 := by
  decide

/-! ### Claim C1 -/

theorem foldl_encStep_eq (opcode : Nat) (l : List EncodingPattern) :
    ∀ (out : String) (found : Bool),
      l.foldl (encStep opcode) (out, found) =
        (out ++ String.join ((l.filter (encMatches opcode)).map
            (fun e => build_assembly e.asm_template opcode e.bit_fields ++ "\n")),
         found || l.any (encMatches opcode)) := by
  induction l with
  | nil =>
    intro out found
    refine Prod.ext ?_ ?_
    · show out = out ++ String.join []
      rw [show String.join ([] : List String) = "" from rfl, String.append_empty]
    · simp
  | cons e rest ih =>
    intro out found
    rw [List.foldl_cons]
    by_cases hm : encMatches opcode e = true
    · have hstep : encStep opcode (out, found) e =
          (out ++ build_assembly e.asm_template opcode e.bit_fields ++ "\n", true) := by
        simp [encStep, hm]
      rw [hstep, ih, List.filter_cons_of_pos hm, List.map_cons, List.any_cons, hm]
      refine Prod.ext ?_ ?_
      · apply String.ext
        simp [List.append_assoc]
      · simp
    · have hstep : encStep opcode (out, found) e = (out, found) := by
        simp [encStep, hm]
      rw [hstep, ih, List.filter_cons_of_neg (by simpa using hm), List.any_cons]
      refine Prod.ext ?_ ?_
      · rfl
      · simp [Bool.eq_false_iff.mpr hm]

theorem foldl_arrays_eq (opcode : Nat) (arrays : List (List EncodingPattern))
    (init : String × Bool) :
    arrays.foldl (fun st encs => encs.foldl (encStep opcode) st) init =
      arrays.flatten.foldl (encStep opcode) init :=
  (List.foldl_flatten _ _ _).symm

/-- Claim C1 (confirmed): a pattern matches a normalized opcode `v` exactly
when `(v &&& fixed_mask) = fixed_bits`; `query_by_opcode` renders and emits
one output line for every matching pattern of the flattened catalog, in
catalog order, never stopping at the first match; and its stderr diagnostic
is issued precisely when zero patterns match (a non-fatal report — the
function always returns normally). -/
theorem query_by_opcode_enumerates_all_matches
    (arrays : List (List EncodingPattern)) (opcode : Nat) :
    (∀ e : EncodingPattern, encMatches opcode e = true ↔
        opcode &&& e.fixed_mask = e.fixed_bits) ∧
    (query_by_opcode arrays opcode).1 =
      String.join ((arrays.flatten.filter (encMatches opcode)).map
        (fun e => build_assembly e.asm_template opcode e.bit_fields ++ "\n")) ∧
    (query_by_opcode arrays opcode).2 =
      (if arrays.flatten.any (encMatches opcode) then ""
       else "No matching instruction found for opcode: 0x" ++ hex8 opcode ++ "\n") ∧
    ((query_by_opcode arrays opcode).2 = "" ↔
      ∃ e ∈ arrays.flatten, encMatches opcode e = true) := by
  have hfold :
      arrays.foldl (fun st encs => encs.foldl (encStep opcode) st) ("", false) =
        ("" ++ String.join ((arrays.flatten.filter (encMatches opcode)).map
            (fun e => build_assembly e.asm_template opcode e.bit_fields ++ "\n")),
         false || arrays.flatten.any (encMatches opcode)) := by
    rw [foldl_arrays_eq, foldl_encStep_eq]
  refine ⟨fun e => by simp [encMatches], ?_, ?_, ?_⟩
  · show (arrays.foldl (fun st encs => encs.foldl (encStep opcode) st) ("", false)).1 = _
    rw [hfold]
    exact String.empty_append _
  · show (if (arrays.foldl (fun st encs => encs.foldl (encStep opcode) st) ("", false)).2
        then "" else _) = _
    rw [hfold]
    simp
  · show (if (arrays.foldl (fun st encs => encs.foldl (encStep opcode) st) ("", false)).2
        then "" else _) = "" ↔ _
    rw [hfold]
    by_cases hany : arrays.flatten.any (encMatches opcode) = true
    · constructor
      · intro _
        exact List.any_eq_true.mp hany
      · intro _
        simp [hany]
    · simp only [Bool.false_or, Bool.eq_false_iff.mpr hany, Bool.false_eq_true, ite_false]
      constructor
      · intro hcontr
        have := congrArg String.data hcontr
        simp at this
      · intro hex
        exact absurd (List.any_eq_true.mpr hex) hany

/-! ### Claim C2 -/

/-- MSB-first weighted sum: the first bit of the list carries weight
`2^(rest.length)` and each subsequent bit a strictly lower power of two. -/
def msbFirstSum (opcode : Nat) : List Nat → Nat
  | [] => 0
  | b :: rest => (if opcode.testBit b then 2 ^ rest.length else 0) + msbFirstSum opcode rest

theorem fieldValueAux_add (opcode : Nat) :
    ∀ (bits : List Nat) (a : Nat),
      fieldValueAux opcode bits (2 ^ bits.length * a) =
        2 ^ bits.length * a + msbFirstSum opcode bits := by
  intro bits
  induction bits with
  | nil => intro a; simp [fieldValueAux, msbFirstSum]
  | cons b rest ih =>
    intro a
    by_cases h : opcode.testBit b
    · have hor : (2 ^ (b :: rest).length * a) ||| (1 <<< rest.length) =
          2 ^ (b :: rest).length * a + 2 ^ rest.length := by
        rw [Nat.shiftLeft_eq, Nat.one_mul]
        exact (Nat.mul_add_lt_is_or (by
          simp only [List.length_cons]
          exact Nat.pow_lt_pow_succ (by norm_num)) a).symm
      have hsplit : 2 ^ (b :: rest).length * a + 2 ^ rest.length =
          2 ^ rest.length * (2 * a + 1) := by
        simp only [List.length_cons, Nat.pow_succ]
        ring
      show fieldValueAux opcode rest
          (if opcode.testBit b then (2 ^ (b :: rest).length * a) ||| (1 <<< rest.length)
           else 2 ^ (b :: rest).length * a) = _
      rw [if_pos h, hor, hsplit, ih (2 * a + 1)]
      simp only [msbFirstSum, if_pos h, List.length_cons, Nat.pow_succ]
      ring
    · have hsplit : 2 ^ (b :: rest).length * a = 2 ^ rest.length * (2 * a) := by
        simp only [List.length_cons, Nat.pow_succ]
        ring
      show fieldValueAux opcode rest
          (if opcode.testBit b then (2 ^ (b :: rest).length * a) ||| (1 <<< rest.length)
           else 2 ^ (b :: rest).length * a) = _
      rw [if_neg h, hsplit, ih (2 * a)]
      simp only [msbFirstSum, if_neg h, List.length_cons, Nat.pow_succ]
      ring

theorem fieldValue_eq_msbFirstSum (opcode : Nat) (bits : List Nat) :
    fieldValue opcode bits = msbFirstSum opcode bits := by
  have := fieldValueAux_add opcode bits 0
  simpa [fieldValue] using this

theorem msbFirstSum_eq_sum (opcode : Nat) :
    ∀ bits : List Nat,
      msbFirstSum opcode bits =
        ∑ k ∈ Finset.range bits.length,
          (if opcode.testBit (bits.getD k 0) then 2 ^ (bits.length - 1 - k) else 0) := by
  intro bits
  induction bits with
  | nil => simp [msbFirstSum]
  | cons b rest ih =>
    have hexp : ∀ k, (b :: rest).length - 1 - (k + 1) = rest.length - 1 - k := by
      intro k
      simp only [List.length_cons]
      omega
    rw [msbFirstSum, ih]
    simp only [List.length_cons]
    rw [Finset.sum_range_succ']
    have hL : ∀ k : ℕ,
        (if opcode.testBit ((b :: rest).getD (k + 1) 0) then
          2 ^ (rest.length + 1 - 1 - (k + 1)) else 0)
        = (if opcode.testBit (rest.getD k 0) then 2 ^ (rest.length - 1 - k) else 0) := by
      intro k
      have hk : rest.length + 1 - 1 - (k + 1) = rest.length - 1 - k := by omega
      rw [hk, List.getD_cons_succ]
    simp only [hL, List.getD_cons_zero]
    have hz : rest.length + 1 - 1 - 0 = rest.length := by omega
    rw [hz]
    omega

theorem pairwise_gt_filterMap_sub (m : Nat) (cond : Nat → Prop) [DecidablePred cond] :
    ∀ L : List Nat, L.Pairwise (· < ·) → (∀ i ∈ L, i ≤ m) →
      (L.filterMap fun i => if cond i then some (m - i) else none).Pairwise (· > ·) := by
  intro L
  induction L with
  | nil => intro _ _; simp
  | cons i L ih =>
    intro hp hmem
    have hhead : ∀ j ∈ L, i < j := fun j hj => List.rel_of_pairwise_cons hp hj
    have htail := hp.of_cons
    rw [List.filterMap_cons]
    by_cases hc : cond i
    · rw [if_pos hc]
      refine List.Pairwise.cons ?_ (ih htail fun j hj => hmem j (List.mem_cons_of_mem i hj))
      intro y hy
      obtain ⟨j, hjL, hjy⟩ := List.mem_filterMap.mp hy
      by_cases hcj : cond j
      · rw [if_pos hcj] at hjy
        obtain rfl := Option.some.injEq _ _ ▸ hjy
        have h1 : i < j := hhead j hjL
        have h2 : j ≤ m := hmem j (List.mem_cons_of_mem i hjL)
        simp only [gt_iff_lt]
        omega
      · rw [if_neg hcj] at hjy
        exact absurd hjy (by simp)
    · rw [if_neg hc]
      exact ih htail fun j hj => hmem j (List.mem_cons_of_mem i hj)

/-- Claim C2 (confirmed): the extractor's collected bit positions for any
label are strictly decreasing (the scan runs from bit 31 down to bit 0, so
the first bit collected into a group is the group's most significant bit),
and the reconstructed field value gives the first-collected bit the highest
weight and each subsequent bit the next lower power of two —
`2^(len - 1 - k)` for the `k`-th collected bit — also when the positions are
not contiguous. -/
theorem field_extraction_msb_first (bit_fields : List String) (l : String) (opcode : Nat) :
    (fieldPositions bit_fields l).Pairwise (· > ·) ∧
    (∀ p ∈ fieldPositions bit_fields l, p ≤ (fieldPositions bit_fields l).headD p) ∧
    fieldValue opcode (fieldPositions bit_fields l) =
      ∑ k ∈ Finset.range (fieldPositions bit_fields l).length,
        (if opcode.testBit ((fieldPositions bit_fields l).getD k 0) then
          2 ^ ((fieldPositions bit_fields l).length - 1 - k) else 0) := by
  have hpw : (fieldPositions bit_fields l).Pairwise (· > ·) := by
    unfold fieldPositions
    refine pairwise_gt_filterMap_sub 31
      (fun i => (bit_fields.getD i "" ≠ "0" ∧ bit_fields.getD i "" ≠ "1" ∧
        bit_fields.getD i "" = l)) (List.range 32) (List.pairwise_lt_range 32) ?_
    intro i hi
    have := List.mem_range.mp hi
    omega
  refine ⟨hpw, ?_, ?_⟩
  · intro p hp
    match hlist : fieldPositions bit_fields l with
    | [] => rw [hlist] at hp; exact absurd hp (by simp)
    | q :: rest =>
      rw [hlist] at hp hpw
      rcases List.mem_cons.mp hp with rfl | hmem
      · simp
      · simp only [List.headD_cons]
        exact Nat.le_of_lt (List.rel_of_pairwise_cons hpw hmem)
  · rw [fieldValue_eq_msbFirstSum, msbFirstSum_eq_sum]

/-! ### Claim C8 -/

theorem classifyField_crm_of_ne (st : ExtractState) (name : String) (v : Nat)
    (h : name ≠ "CRm") : (classifyField st name v).crm = st.crm := by
  unfold classifyField
  repeat' split
  all_goals simp_all

theorem classifyField_crm_self (st : ExtractState) (v : Nat) :
    (classifyField st "CRm" v).crm = some v := rfl

theorem classifyField_op2_of_ne (st : ExtractState) (name : String) (v : Nat)
    (h : name ≠ "op2") : (classifyField st name v).op2 = st.op2 := by
  unfold classifyField
  repeat' split
  all_goals simp_all

theorem classifyField_op2_self (st : ExtractState) (v : Nat) :
    (classifyField st "op2" v).op2 = some v := rfl

theorem classifyField_imm_of_not_starts (st : ExtractState) (name : String) (v : Nat)
    (h : strStarts name "imm" = false) : (classifyField st name v).imm = st.imm := by
  unfold classifyField
  repeat' split
  all_goals simp_all

theorem classifyField_imm_starts (st : ExtractState) (name : String) (v : Nat)
    (h : strStarts name "imm" = true) : (classifyField st name v).imm = some v := by
  unfold classifyField
  repeat' split
  all_goals first
    | rfl
    | exact absurd h (by subst_vars; decide)

theorem classifyField_imm_mono (st : ExtractState) (name : String) (v : Nat)
    (h : st.imm.isSome = true) : (classifyField st name v).imm.isSome = true := by
  unfold classifyField
  repeat' split
  all_goals simp_all

theorem foldl_classify_crm_not_mem (opcode : Nat) (bf : List String) :
    ∀ (keys : List String) (st : ExtractState), "CRm" ∉ keys →
      (keys.foldl (fun st name =>
        classifyField st name (fieldValue opcode (fieldPositions bf name))) st).crm = st.crm := by
  intro keys
  induction keys with
  | nil => intro st _; rfl
  | cons k rest ih =>
    intro st hk
    rw [List.foldl_cons, ih _ (fun hc => hk (List.mem_cons_of_mem _ hc)),
      classifyField_crm_of_ne _ _ _ (fun he => hk (he ▸ List.mem_cons_self _ _))]

theorem foldl_classify_crm_mem (opcode : Nat) (bf : List String) :
    ∀ (keys : List String) (st : ExtractState), "CRm" ∈ keys →
      (keys.foldl (fun st name =>
        classifyField st name (fieldValue opcode (fieldPositions bf name))) st).crm =
        some (fieldValue opcode (fieldPositions bf "CRm")) := by
  intro keys
  induction keys with
  | nil => intro st h; exact absurd h (by simp)
  | cons k rest ih =>
    intro st hk
    rw [List.foldl_cons]
    by_cases hmem : "CRm" ∈ rest
    · exact ih _ hmem
    · have hkeq : k = "CRm" := by
        rcases List.mem_cons.mp hk with h | h
        · exact h.symm
        · exact absurd h hmem
      subst hkeq
      rw [foldl_classify_crm_not_mem opcode bf rest _ hmem, classifyField_crm_self]

theorem foldl_classify_op2_not_mem (opcode : Nat) (bf : List String) :
    ∀ (keys : List String) (st : ExtractState), "op2" ∉ keys →
      (keys.foldl (fun st name =>
        classifyField st name (fieldValue opcode (fieldPositions bf name))) st).op2 = st.op2 := by
  intro keys
  induction keys with
  | nil => intro st _; rfl
  | cons k rest ih =>
    intro st hk
    rw [List.foldl_cons, ih _ (fun hc => hk (List.mem_cons_of_mem _ hc)),
      classifyField_op2_of_ne _ _ _ (fun he => hk (he ▸ List.mem_cons_self _ _))]

theorem foldl_classify_op2_mem (opcode : Nat) (bf : List String) :
    ∀ (keys : List String) (st : ExtractState), "op2" ∈ keys →
      (keys.foldl (fun st name =>
        classifyField st name (fieldValue opcode (fieldPositions bf name))) st).op2 =
        some (fieldValue opcode (fieldPositions bf "op2")) := by
  intro keys
  induction keys with
  | nil => intro st h; exact absurd h (by simp)
  | cons k rest ih =>
    intro st hk
    rw [List.foldl_cons]
    by_cases hmem : "op2" ∈ rest
    · exact ih _ hmem
    · have hkeq : k = "op2" := by
        rcases List.mem_cons.mp hk with h | h
        · exact h.symm
        · exact absurd h hmem
      subst hkeq
      rw [foldl_classify_op2_not_mem opcode bf rest _ hmem, classifyField_op2_self]

theorem foldl_classify_imm_not_starts (opcode : Nat) (bf : List String) :
    ∀ (keys : List String) (st : ExtractState),
      (∀ n ∈ keys, strStarts n "imm" = false) →
      (keys.foldl (fun st name =>
        classifyField st name (fieldValue opcode (fieldPositions bf name))) st).imm = st.imm := by
  intro keys
  induction keys with
  | nil => intro st _; rfl
  | cons k rest ih =>
    intro st hk
    rw [List.foldl_cons, ih _ (fun n hn => hk n (List.mem_cons_of_mem _ hn)),
      classifyField_imm_of_not_starts _ _ _ (hk k (List.mem_cons_self _ _))]

theorem foldl_classify_imm_mono (opcode : Nat) (bf : List String) :
    ∀ (keys : List String) (st : ExtractState), st.imm.isSome = true →
      (keys.foldl (fun st name =>
        classifyField st name (fieldValue opcode (fieldPositions bf name))) st).imm.isSome = true := by
  intro keys
  induction keys with
  | nil => intro st h; exact h
  | cons k rest ih =>
    intro st h
    rw [List.foldl_cons]
    exact ih _ (classifyField_imm_mono _ _ _ h)

theorem foldl_classify_imm_some (opcode : Nat) (bf : List String) :
    ∀ (keys : List String) (st : ExtractState),
      (∃ n ∈ keys, strStarts n "imm" = true) →
      (keys.foldl (fun st name =>
        classifyField st name (fieldValue opcode (fieldPositions bf name))) st).imm.isSome = true := by
  intro keys
  induction keys with
  | nil => intro st h; simp at h
  | cons k rest ih =>
    intro st h
    rw [List.foldl_cons]
    by_cases hks : strStarts k "imm" = true
    · exact foldl_classify_imm_mono opcode bf rest _
        (by rw [classifyField_imm_starts _ _ _ hks]; rfl)
    · obtain ⟨n, hn, hns⟩ := h
      rcases List.mem_cons.mp hn with rfl | hmem
      · exact absurd hns hks
      · exact ih _ ⟨n, hmem, hns⟩

theorem mem_insertSorted (a s : String) :
    ∀ l : List String, a ∈ insertSorted s l ↔ a = s ∨ a ∈ l := by
  intro l
  induction l with
  | nil => simp [insertSorted]
  | cons t ts ih =>
    unfold insertSorted
    by_cases h : strLe s.data t.data = true
    · rw [if_pos h]
      simp
    · rw [if_neg h]
      simp only [List.mem_cons, ih]
      tauto

theorem mem_sortStrings (a : String) :
    ∀ l : List String, a ∈ sortStrings l ↔ a ∈ l := by
  intro l
  induction l with
  | nil => simp [sortStrings]
  | cons x xs ih =>
    show a ∈ insertSorted x (sortStrings xs) ↔ _
    rw [mem_insertSorted, ih]
    simp

/-- Claim C8 (confirmed): when the extracted fields include both `CRm` and
`op2` and no label beginning with `imm` populated the `imm` bucket, the
renderer's immediate is `(CRm <<< 3) ||| op2`; when some `imm`-labelled field
was extracted, the bucket is already populated and the `CRm`/`op2`
combination step leaves it unchanged. -/
theorem crm_op2_combination (opcode : Nat) (bf : List String) :
    (("CRm" ∈ fieldLabels bf) → ("op2" ∈ fieldLabels bf) →
      (∀ l ∈ fieldLabels bf, strStarts l "imm" = false) →
      (applyCrmOp2 (extractAll opcode bf)).imm =
        some ((fieldValue opcode (fieldPositions bf "CRm") <<< 3) |||
          fieldValue opcode (fieldPositions bf "op2"))) ∧
    ((∃ l ∈ fieldLabels bf, strStarts l "imm" = true) →
      (applyCrmOp2 (extractAll opcode bf)).imm = (extractAll opcode bf).imm) := by
  constructor
  · intro hcrm hop2 himm
    have hc : (extractAll opcode bf).crm =
        some (fieldValue opcode (fieldPositions bf "CRm")) :=
      foldl_classify_crm_mem opcode bf _ _ ((mem_sortStrings _ _).mpr hcrm)
    have ho : (extractAll opcode bf).op2 =
        some (fieldValue opcode (fieldPositions bf "op2")) :=
      foldl_classify_op2_mem opcode bf _ _ ((mem_sortStrings _ _).mpr hop2)
    have hi : (extractAll opcode bf).imm = none :=
      foldl_classify_imm_not_starts opcode bf _ _
        (fun n hn => himm n ((mem_sortStrings _ _).mp hn))
    unfold applyCrmOp2
    rw [if_pos ⟨by rw [hc]; rfl, by rw [ho]; rfl, by rw [hi]; rfl⟩]
    rw [hc, ho]
    rfl
  · intro hex
    have hs : (extractAll opcode bf).imm.isSome = true :=
      foldl_classify_imm_some opcode bf _ _
        (by obtain ⟨n, hn, hns⟩ := hex
            exact ⟨n, (mem_sortStrings _ _).mpr hn, hns⟩)
    unfold applyCrmOp2
    rw [if_neg]
    intro ⟨_, _, hnone⟩
    rw [Option.isNone_iff_eq_none] at hnone
    rw [hnone] at hs
    exact absurd hs (by simp)

/-- Witness for claim C8 at the `HINT` encoding and opcode `0xd503201f`. -/
theorem crm_op2_combination_witness :
    ("CRm" ∈ fieldLabels hintBitFields ∧ "op2" ∈ fieldLabels hintBitFields ∧
      (∀ l ∈ fieldLabels hintBitFields, strStarts l "imm" = false)) ∧
    (applyCrmOp2 (extractAll 0xd503201f hintBitFields)).imm =
      some ((fieldValue 0xd503201f (fieldPositions hintBitFields "CRm") <<< 3) |||
        fieldValue 0xd503201f (fieldPositions hintBitFields "op2")) :=
  ⟨by decide,
    (crm_op2_combination 0xd503201f hintBitFields).1 (by decide) (by decide) (by decide)⟩

/-! ### Claim C9 (amended rendering rules) -/

theorem digitChar_ne_lt (m : Nat) : Nat.digitChar m ≠ '<' := by
  unfold Nat.digitChar
  by_cases h0 : m = 0
  · subst h0; decide
  rw [if_neg h0]
  by_cases h1 : m = 1
  · subst h1; decide
  rw [if_neg h1]
  by_cases h2 : m = 2
  · subst h2; decide
  rw [if_neg h2]
  by_cases h3 : m = 3
  · subst h3; decide
  rw [if_neg h3]
  by_cases h4 : m = 4
  · subst h4; decide
  rw [if_neg h4]
  by_cases h5 : m = 5
  · subst h5; decide
  rw [if_neg h5]
  by_cases h6 : m = 6
  · subst h6; decide
  rw [if_neg h6]
  by_cases h7 : m = 7
  · subst h7; decide
  rw [if_neg h7]
  by_cases h8 : m = 8
  · subst h8; decide
  rw [if_neg h8]
  by_cases h9 : m = 9
  · subst h9; decide
  rw [if_neg h9]
  by_cases h10 : m = 10
  · subst h10; decide
  rw [if_neg h10]
  by_cases h11 : m = 11
  · subst h11; decide
  rw [if_neg h11]
  by_cases h12 : m = 12
  · subst h12; decide
  rw [if_neg h12]
  by_cases h13 : m = 13
  · subst h13; decide
  rw [if_neg h13]
  by_cases h14 : m = 14
  · subst h14; decide
  rw [if_neg h14]
  by_cases h15 : m = 15
  · subst h15; decide
  rw [if_neg h15]
  decide

theorem toDigitsCore_ne_lt (b : Nat) :
    ∀ (fuel n : Nat) (ds : List Char), (∀ c ∈ ds, c ≠ '<') →
      ∀ c ∈ Nat.toDigitsCore b fuel n ds, c ≠ '<' := by
  intro fuel
  induction fuel with
  | zero => intro n ds h c hc; exact h c hc
  | succ fuel ih =>
    intro n ds h c hc
    rw [Nat.toDigitsCore] at hc
    by_cases hz : n / b = 0
    · rw [if_pos hz] at hc
      rcases List.mem_cons.mp hc with rfl | hmem
      · exact digitChar_ne_lt _
      · exact h c hmem
    · rw [if_neg hz] at hc
      refine ih (n / b) (Nat.digitChar (n % b) :: ds) ?_ c hc
      intro x hx
      rcases List.mem_cons.mp hx with rfl | hmem
      · exact digitChar_ne_lt _
      · exact h x hmem

theorem decStr_ne_lt (v : Nat) : ∀ c ∈ (decStr v).data, c ≠ '<' :=
  toDigitsCore_ne_lt 10 (v + 1) v [] (by simp)

theorem regStr_ne_lt (pre : String) (hpre : ∀ c ∈ pre.data, c ≠ '<') (v : Nat) :
    ∀ c ∈ (pre ++ decStr v).data, c ≠ '<' := by
  intro c hc
  rw [String.data_append] at hc
  rcases List.mem_append.mp hc with h | h
  · exact hpre c h
  · exact decStr_ne_lt v c h

theorem replaceAllFuel_nil (pat repl : List Char) (fuel : Nat) :
    replaceAllFuel pat repl fuel [] = [] := by
  cases fuel <;> rfl

theorem replaceAllFuel_ne_head (c0 : Char) (p repl : List Char) :
    ∀ (fuel : Nat) (l : List Char), (∀ c ∈ l, c ≠ c0) →
      replaceAllFuel (c0 :: p) repl fuel l = l := by
  intro fuel
  induction fuel with
  | zero => intro l _; cases l <;> rfl
  | succ fuel ih =>
    intro l h
    cases l with
    | nil => rfl
    | cons c rest =>
      rw [replaceAllFuel, if_neg, ih rest (fun x hx => h x (List.mem_cons_of_mem _ hx))]
      intro hpre
      have := hpre.2
      simp only [List.isPrefixOf, Bool.and_eq_true, beq_iff_eq] at this
      exact h c (List.mem_cons_self _ _) this.1.symm

theorem isPrefixOf_self : ∀ l : List Char, l.isPrefixOf l = true := by
  intro l
  induction l with
  | nil => rfl
  | cons c rest ih => simp [List.isPrefixOf, ih]

theorem strReplaceAll_self (pat repl : String) (h : pat.data ≠ []) :
    strReplaceAll pat pat repl = repl := by
  unfold strReplaceAll replaceAll
  match hp : pat.data with
  | [] => exact absurd hp h
  | c :: rest =>
    rw [List.length_cons, replaceAllFuel, if_pos ⟨by simp, isPrefixOf_self _⟩,
      List.drop_length, replaceAllFuel_nil, List.append_nil]

theorem strReplaceAll_ne_lt (s pat repl : String) (p : List Char)
    (hpat : pat.data = '<' :: p) (hs : ∀ c ∈ s.data, c ≠ '<') :
    strReplaceAll s pat repl = s := by
  unfold strReplaceAll replaceAll
  rw [hpat, replaceAllFuel_ne_head _ _ _ _ _ hs]

/-- Claim C9 (amended): the `Rd`/`Rn` placeholders special-case index 31 as
`sp`/`wsp` and otherwise render `x{n}`/`w{n}`; the `Rm`/`Rt` placeholders
`<Xm>`, `<R><m>`, `<Wm>`, `<Xt>` render every index, including 31, as
`x{n}`/`w{n}` without special case; and `<Wt>` belongs to the `Rt` group only
when no `Rd` field was extracted — when an `Rd` field is present, the `Rd`
block consumes `<Wt>` first, rendering the `Rd` index with the `wsp` special
case. -/
theorem register_placeholder_rendering (v t : Nat) :
    (replaceRegisters { rd := some v } "<Xd|SP>" = if v = 31 then "sp" else "x" ++ decStr v) ∧
    (replaceRegisters { rd := some v } "<Xd>" = if v = 31 then "sp" else "x" ++ decStr v) ∧
    (replaceRegisters { rd := some v } "<Wd|WSP>" = if v = 31 then "wsp" else "w" ++ decStr v) ∧
    (replaceRegisters { rd := some v } "<Wd>" = if v = 31 then "wsp" else "w" ++ decStr v) ∧
    (replaceRegisters { rn := some v } "<Xn|SP>" = if v = 31 then "sp" else "x" ++ decStr v) ∧
    (replaceRegisters { rn := some v } "<Xn>" = if v = 31 then "sp" else "x" ++ decStr v) ∧
    (replaceRegisters { rn := some v } "<Wn|WSP>" = if v = 31 then "wsp" else "w" ++ decStr v) ∧
    (replaceRegisters { rn := some v } "<Wn>" = if v = 31 then "wsp" else "w" ++ decStr v) ∧
    (replaceRegisters { rm := some v } "<Xm>" = "x" ++ decStr v) ∧
    (replaceRegisters { rm := some v } "<R><m>" = "x" ++ decStr v) ∧
    (replaceRegisters { rm := some v } "<Wm>" = "w" ++ decStr v) ∧
    (replaceRegisters { rt := some v } "<Xt>" = "x" ++ decStr v) ∧
    (replaceRegisters { rt := some v } "<Wt>" = "w" ++ decStr v) ∧
    (replaceRegisters { rd := some v, rt := some t } "<Wt>" =
      if v = 31 then "wsp" else "w" ++ decStr v) := by
  have hx := regStr_ne_lt "x" (by decide) v
  have hw := regStr_ne_lt "w" (by decide) v
  have hwsp : ∀ c ∈ ("wsp" : String).data, c ≠ '<' := by decide
  refine ⟨?_, ?_, ?_, ?_, ?_, ?_, ?_, ?_, ?_, ?_, ?_, ?_, ?_, ?_⟩
  · by_cases hv : v = 31
    · subst hv; decide
    · simp only [replaceRegisters, replaceRd, replaceRn, replaceRm, replaceRt, if_neg hv]
      rw [strReplaceAll_self _ _ (by decide),
        strReplaceAll_ne_lt _ _ _ _ rfl hx, strReplaceAll_ne_lt _ _ _ _ rfl hx,
        strReplaceAll_ne_lt _ _ _ _ rfl hx, strReplaceAll_ne_lt _ _ _ _ rfl hx]
  · by_cases hv : v = 31
    · subst hv; decide
    · simp only [replaceRegisters, replaceRd, replaceRn, replaceRm, replaceRt, if_neg hv]
      rw [show strReplaceAll "<Xd>" "<Xd|SP>" ("x" ++ decStr v) = "<Xd>" from rfl]
      rw [strReplaceAll_self _ _ (by decide),
        strReplaceAll_ne_lt _ _ _ _ rfl hx, strReplaceAll_ne_lt _ _ _ _ rfl hx,
        strReplaceAll_ne_lt _ _ _ _ rfl hx]
  · by_cases hv : v = 31
    · subst hv; decide
    · simp only [replaceRegisters, replaceRd, replaceRn, replaceRm, replaceRt, if_neg hv]
      rw [show strReplaceAll "<Wd|WSP>" "<Xd|SP>" ("x" ++ decStr v) = "<Wd|WSP>" from rfl]
      rw [show strReplaceAll "<Wd|WSP>" "<Xd>" ("x" ++ decStr v) = "<Wd|WSP>" from rfl]
      rw [strReplaceAll_self _ _ (by decide),
        strReplaceAll_ne_lt _ _ _ _ rfl hw, strReplaceAll_ne_lt _ _ _ _ rfl hw]
  · by_cases hv : v = 31
    · subst hv; decide
    · simp only [replaceRegisters, replaceRd, replaceRn, replaceRm, replaceRt, if_neg hv]
      rw [show strReplaceAll "<Wd>" "<Xd|SP>" ("x" ++ decStr v) = "<Wd>" from rfl]
      rw [show strReplaceAll "<Wd>" "<Xd>" ("x" ++ decStr v) = "<Wd>" from rfl]
      rw [show strReplaceAll "<Wd>" "<Wd|WSP>" ("w" ++ decStr v) = "<Wd>" from rfl]
      rw [strReplaceAll_self _ _ (by decide), strReplaceAll_ne_lt _ _ _ _ rfl hw]
  · by_cases hv : v = 31
    · subst hv; decide
    · simp only [replaceRegisters, replaceRd, replaceRn, replaceRm, replaceRt, if_neg hv]
      rw [strReplaceAll_self _ _ (by decide),
        strReplaceAll_ne_lt _ _ _ _ rfl hx, strReplaceAll_ne_lt _ _ _ _ rfl hx,
        strReplaceAll_ne_lt _ _ _ _ rfl hx]
  · by_cases hv : v = 31
    · subst hv; decide
    · simp only [replaceRegisters, replaceRd, replaceRn, replaceRm, replaceRt, if_neg hv]
      rw [show strReplaceAll "<Xn>" "<Xn|SP>" ("x" ++ decStr v) = "<Xn>" from rfl]
      rw [strReplaceAll_self _ _ (by decide),
        strReplaceAll_ne_lt _ _ _ _ rfl hx, strReplaceAll_ne_lt _ _ _ _ rfl hx]
  · by_cases hv : v = 31
    · subst hv; decide
    · simp only [replaceRegisters, replaceRd, replaceRn, replaceRm, replaceRt, if_neg hv]
      rw [show strReplaceAll "<Wn|WSP>" "<Xn|SP>" ("x" ++ decStr v) = "<Wn|WSP>" from rfl]
      rw [show strReplaceAll "<Wn|WSP>" "<Xn>" ("x" ++ decStr v) = "<Wn|WSP>" from rfl]
      rw [strReplaceAll_self _ _ (by decide), strReplaceAll_ne_lt _ _ _ _ rfl hw]
  · by_cases hv : v = 31
    · subst hv; decide
    · simp only [replaceRegisters, replaceRd, replaceRn, replaceRm, replaceRt, if_neg hv]
      rw [show strReplaceAll "<Wn>" "<Xn|SP>" ("x" ++ decStr v) = "<Wn>" from rfl]
      rw [show strReplaceAll "<Wn>" "<Xn>" ("x" ++ decStr v) = "<Wn>" from rfl]
      rw [show strReplaceAll "<Wn>" "<Wn|WSP>" ("w" ++ decStr v) = "<Wn>" from rfl]
      exact strReplaceAll_self _ _ (by decide)
  · simp only [replaceRegisters, replaceRd, replaceRn, replaceRm, replaceRt]
    rw [strReplaceAll_self _ _ (by decide),
      strReplaceAll_ne_lt _ _ _ _ rfl hx, strReplaceAll_ne_lt _ _ _ _ rfl hx]
  · simp only [replaceRegisters, replaceRd, replaceRn, replaceRm, replaceRt]
    rw [show strReplaceAll "<R><m>" "<Xm>" ("x" ++ decStr v) = "<R><m>" from rfl]
    rw [strReplaceAll_self _ _ (by decide), strReplaceAll_ne_lt _ _ _ _ rfl hx]
  · simp only [replaceRegisters, replaceRd, replaceRn, replaceRm, replaceRt]
    rw [show strReplaceAll "<Wm>" "<Xm>" ("x" ++ decStr v) = "<Wm>" from rfl]
    rw [show strReplaceAll "<Wm>" "<R><m>" ("x" ++ decStr v) = "<Wm>" from rfl]
    exact strReplaceAll_self _ _ (by decide)
  · simp only [replaceRegisters, replaceRd, replaceRn, replaceRm, replaceRt]
    rw [strReplaceAll_self _ _ (by decide), strReplaceAll_ne_lt _ _ _ _ rfl hx]
  · simp only [replaceRegisters, replaceRd, replaceRn, replaceRm, replaceRt]
    rw [show strReplaceAll "<Wt>" "<Xt>" ("x" ++ decStr v) = "<Wt>" from rfl]
    exact strReplaceAll_self _ _ (by decide)
  · have hxt := regStr_ne_lt "x" (by decide) t
    have hwt := regStr_ne_lt "w" (by decide) t
    by_cases hv : v = 31
    · subst hv
      rw [if_pos rfl]
      show strReplaceAll (strReplaceAll "wsp" "<Xt>" ("x" ++ decStr t)) "<Wt>"
        ("w" ++ decStr t) = "wsp"
      rw [strReplaceAll_ne_lt _ _ _ _ rfl hwsp, strReplaceAll_ne_lt _ _ _ _ rfl hwsp]
    · simp only [replaceRegisters, replaceRd, replaceRn, replaceRm, replaceRt, if_neg hv]
      rw [show strReplaceAll "<Wt>" "<Xd|SP>" ("x" ++ decStr v) = "<Wt>" from rfl]
      rw [show strReplaceAll "<Wt>" "<Xd>" ("x" ++ decStr v) = "<Wt>" from rfl]
      rw [show strReplaceAll "<Wt>" "<Wd|WSP>" ("w" ++ decStr v) = "<Wt>" from rfl]
      rw [show strReplaceAll "<Wt>" "<Wd>" ("w" ++ decStr v) = "<Wt>" from rfl]
      rw [strReplaceAll_self _ _ (by decide),
        strReplaceAll_ne_lt _ _ _ _ rfl hw, strReplaceAll_ne_lt _ _ _ _ rfl hw]

/-! ### Query-grammar lemmas (used by claims C5, C7, C10) -/

theorem takeClass_sound (p : Char → Bool) (l t r : List Char)
    (h : takeClass p l = some (t, r)) :
    l = t ++ r ∧ t ≠ [] ∧ (∀ c ∈ t, p c = true) := by
  unfold takeClass at h
  by_cases ht : l.takeWhile p = []
  · rw [if_pos ht] at h
    exact absurd h (by simp)
  · rw [if_neg ht] at h
    obtain ⟨h1, h2⟩ := Prod.mk.injEq _ _ _ _ ▸ Option.some.inj h
    subst h1
    subst h2
    exact ⟨(List.takeWhile_append_dropWhile p l).symm, ht,
      fun c hc => List.mem_takeWhile_imp hc⟩

theorem expectChar_sound (ch : Char) (l r : List Char)
    (h : expectChar ch l = some r) : l = ch :: r := by
  cases l with
  | nil => exact absurd h (by simp [expectChar])
  | cons c rest =>
    rw [show expectChar ch (c :: rest) = if c = ch then some rest else none from rfl] at h
    by_cases hc : c = ch
    · rw [if_pos hc] at h
      rw [hc, Option.some.inj h]
    · rw [if_neg hc] at h
      exact absurd h (by simp)

theorem takeWhile_nil_of_head (p : Char → Bool) (c : Char) (r : List Char)
    (h : p c = false) : (c :: r).takeWhile p = [] := by
  simp [List.takeWhile_cons, h]

theorem takeClass_build (p : Char → Bool) (t r : List Char) (ht : t ≠ [])
    (hall : ∀ c ∈ t, p c = true) (hr : r.takeWhile p = []) :
    takeClass p (t ++ r) = some (t, r) := by
  have hd : r.dropWhile p = r := by
    have h2 := List.takeWhile_append_dropWhile p r
    rw [hr] at h2
    simpa using h2
  unfold takeClass
  rw [List.takeWhile_append_of_pos (fun a ha => hall a ha),
    List.dropWhile_append_of_pos (fun a ha => hall a ha), hr, hd, List.append_nil,
    if_neg ht]

theorem expectChar_build (ch : Char) (r : List Char) :
    expectChar ch (ch :: r) = some r := by
  simp [expectChar]

theorem isRegChar_not_lower (c : Char) (h : isRegChar c = true) :
    isLowerAscii c = false := by
  simp only [isRegChar, isLowerAscii, decide_eq_true_eq, decide_eq_false_iff_not] at *
  omega

theorem isFieldChar_not_lower (c : Char) (h : isFieldChar c = true) :
    isLowerAscii c = false := by
  simp only [isFieldChar, isLowerAscii, decide_eq_true_eq, decide_eq_false_iff_not] at *
  omega

theorem isDigitChar_not_lower (c : Char) (h : isDigitChar c = true) :
    isLowerAscii c = false := by
  simp only [isDigitChar, isLowerAscii, decide_eq_true_eq, decide_eq_false_iff_not] at *
  omega

theorem matchDotOnly_chars (l : List Char) (res : String × String)
    (h : matchDotOnly l = some res) : ∀ c ∈ l, isLowerAscii c = false := by
  unfold matchDotOnly at h
  cases h1 : takeClass isRegChar l with
  | none => rw [h1] at h; simp at h
  | some pr1 =>
    obtain ⟨reg, r1⟩ := pr1
    rw [h1] at h
    simp only [] at h
    cases h2 : expectChar '.' r1 with
    | none => rw [h2] at h; simp at h
    | some r2 =>
      rw [h2] at h
      simp only [] at h
      cases h3 : takeClass isFieldChar r2 with
      | none => rw [h3] at h; simp at h
      | some pr3 =>
        obtain ⟨fld, r3⟩ := pr3
        rw [h3] at h
        simp only [] at h
        by_cases h4 : r3 = []
        · obtain ⟨hl1, _, hall1⟩ := takeClass_sound _ _ _ _ h1
          have hl2 := expectChar_sound _ _ _ h2
          obtain ⟨hl3, _, hall3⟩ := takeClass_sound _ _ _ _ h3
          subst h4
          intro c hc
          rw [hl1, hl2, hl3] at hc
          rcases List.mem_append.mp hc with hm | hm
          · exact isRegChar_not_lower c (hall1 c hm)
          · rcases List.mem_cons.mp hm with rfl | hm2
            · decide
            · rw [List.append_nil] at hm2
              exact isFieldChar_not_lower c (hall3 c hm2)
        · rw [if_neg h4] at h
          simp at h

theorem matchDotBracket_chars (l : List Char) (res : String × String × Nat × Nat)
    (h : matchDotBracket l = some res) : ∀ c ∈ l, isLowerAscii c = false := by
  unfold matchDotBracket at h
  cases h1 : takeClass isRegChar l with
  | none => rw [h1] at h; simp at h
  | some pr1 =>
    obtain ⟨reg, r1⟩ := pr1
    rw [h1] at h
    simp only [] at h
    cases h2 : expectChar '.' r1 with
    | none => rw [h2] at h; simp at h
    | some r2 =>
      rw [h2] at h
      simp only [] at h
      cases h3 : takeClass isFieldChar r2 with
      | none => rw [h3] at h; simp at h
      | some pr3 =>
        obtain ⟨fld, r3⟩ := pr3
        rw [h3] at h
        simp only [] at h
        cases h4 : expectChar '[' r3 with
        | none => rw [h4] at h; simp at h
        | some r4 =>
          rw [h4] at h
          simp only [] at h
          cases h5 : takeClass isDigitChar r4 with
          | none => rw [h5] at h; simp at h
          | some pr5 =>
            obtain ⟨d1, r5⟩ := pr5
            rw [h5] at h
            simp only [] at h
            obtain ⟨hl1, _, hall1⟩ := takeClass_sound _ _ _ _ h1
            have hl2 := expectChar_sound _ _ _ h2
            obtain ⟨hl3, _, hall3⟩ := takeClass_sound _ _ _ _ h3
            have hl4 := expectChar_sound _ _ _ h4
            obtain ⟨hl5, _, hall5⟩ := takeClass_sound _ _ _ _ h5
            have hmem : ∀ tail : List Char, r5 = tail →
                (∀ c ∈ tail, isLowerAscii c = false) → ∀ c ∈ l, isLowerAscii c = false := by
              intro tail htail htl c hc
              subst htail
              rw [hl1, hl2, hl3, hl4, hl5] at hc
              rcases List.mem_append.mp hc with hm | hm
              · exact isRegChar_not_lower c (hall1 c hm)
              rcases List.mem_cons.mp hm with rfl | hm
              · decide
              rcases List.mem_append.mp hm with hm | hm
              · exact isFieldChar_not_lower c (hall3 c hm)
              rcases List.mem_cons.mp hm with rfl | hm
              · decide
              rcases List.mem_append.mp hm with hm | hm
              · exact isDigitChar_not_lower c (hall5 c hm)
              · exact htl c hm
            cases h6 : expectChar ':' r5 with
            | some r6 =>
              rw [h6] at h
              simp only [] at h
              cases h7 : takeClass isDigitChar r6 with
              | none => rw [h7] at h; simp at h
              | some pr7 =>
                obtain ⟨d2, r7⟩ := pr7
                rw [h7] at h
                simp only [] at h
                cases h8 : expectChar ']' r7 with
                | none => rw [h8] at h; simp at h
                | some r8 =>
                  rw [h8] at h
                  simp only [] at h
                  by_cases h9 : r8 = []
                  · subst h9
                    have hl6 := expectChar_sound _ _ _ h6
                    obtain ⟨hl7, _, hall7⟩ := takeClass_sound _ _ _ _ h7
                    have hl8 := expectChar_sound _ _ _ h8
                    refine hmem (':' :: d2 ++ [']']) (by rw [hl6, hl7, hl8]; simp) ?_
                    intro c hc
                    rcases List.mem_cons.mp hc with rfl | hm
                    · decide
                    rcases List.mem_append.mp hm with hm | hm
                    · exact isDigitChar_not_lower c (hall7 c hm)
                    · rcases List.mem_singleton.mp hm with rfl
                      decide
                  · rw [if_neg h9] at h
                    simp at h
            | none =>
              rw [h6] at h
              simp only [] at h
              cases h7 : expectChar ']' r5 with
              | none => rw [h7] at h; simp at h
              | some r6 =>
                rw [h7] at h
                simp only [] at h
                by_cases h8 : r6 = []
                · subst h8
                  have hl7 := expectChar_sound _ _ _ h7
                  refine hmem [']'] hl7 ?_
                  intro c hc
                  rcases List.mem_singleton.mp hc with rfl
                  decide
                · rw [if_neg h8] at h
                  simp at h

theorem matchBracket_chars (l : List Char) (res : String × Option (Nat × Nat))
    (h : matchBracket l = some res) : ∀ c ∈ l, isLowerAscii c = false := by
  unfold matchBracket at h
  cases h1 : takeClass isRegChar l with
  | none => rw [h1] at h; simp at h
  | some pr1 =>
    obtain ⟨reg, r1⟩ := pr1
    rw [h1] at h
    simp only [] at h
    obtain ⟨hl1, _, hall1⟩ := takeClass_sound _ _ _ _ h1
    have hmem : ∀ tail : List Char, r1 = tail →
        (∀ c ∈ tail, isLowerAscii c = false) → ∀ c ∈ l, isLowerAscii c = false := by
      intro tail htail htl c hc
      subst htail
      rw [hl1] at hc
      rcases List.mem_append.mp hc with hm | hm
      · exact isRegChar_not_lower c (hall1 c hm)
      · exact htl c hm
    by_cases h2 : r1 = []
    · exact hmem [] h2 (by simp)
    · rw [if_neg h2] at h
      cases h3 : expectChar '[' r1 with
      | none => rw [h3] at h; simp at h
      | some r2 =>
        rw [h3] at h
        simp only [] at h
        cases h4 : takeClass isDigitChar r2 with
        | none => rw [h4] at h; simp at h
        | some pr4 =>
          obtain ⟨d1, r3⟩ := pr4
          rw [h4] at h
          simp only [] at h
          have hl3 := expectChar_sound _ _ _ h3
          obtain ⟨hl4, _, hall4⟩ := takeClass_sound _ _ _ _ h4
          have hmem2 : ∀ tail : List Char, r3 = tail →
              (∀ c ∈ tail, isLowerAscii c = false) → ∀ c ∈ l, isLowerAscii c = false := by
            intro tail htail htl
            refine hmem ('[' :: d1 ++ tail) (by rw [hl3, hl4, htail]; simp) ?_
            intro c hc
            rcases List.mem_cons.mp hc with rfl | hm
            · decide
            rcases List.mem_append.mp hm with hm | hm
            · exact isDigitChar_not_lower c (hall4 c hm)
            · exact htl c hm
          cases h5 : expectChar ':' r3 with
          | some r4 =>
            rw [h5] at h
            simp only [] at h
            cases h6 : takeClass isDigitChar r4 with
            | none => rw [h6] at h; simp at h
            | some pr6 =>
              obtain ⟨d2, r5⟩ := pr6
              rw [h6] at h
              simp only [] at h
              cases h7 : expectChar ']' r5 with
              | none => rw [h7] at h; simp at h
              | some r6 =>
                rw [h7] at h
                simp only [] at h
                by_cases h8 : r6 = []
                · subst h8
                  have hl5 := expectChar_sound _ _ _ h5
                  obtain ⟨hl6, _, hall6⟩ := takeClass_sound _ _ _ _ h6
                  have hl7 := expectChar_sound _ _ _ h7
                  refine hmem2 (':' :: d2 ++ [']']) (by rw [hl5, hl6, hl7]; simp) ?_
                  intro c hc
                  rcases List.mem_cons.mp hc with rfl | hm
                  · decide
                  rcases List.mem_append.mp hm with hm | hm
                  · exact isDigitChar_not_lower c (hall6 c hm)
                  · rcases List.mem_singleton.mp hm with rfl
                    decide
                · rw [if_neg h8] at h
                  simp at h
          | none =>
            rw [h5] at h
            simp only [] at h
            cases h6 : expectChar ']' r3 with
            | none => rw [h6] at h; simp at h
            | some r4 =>
              rw [h6] at h
              simp only [] at h
              by_cases h7 : r4 = []
              · subst h7
                have hl6 := expectChar_sound _ _ _ h6
                refine hmem2 [']'] hl6 ?_
                intro c hc
                rcases List.mem_singleton.mp hc with rfl
                decide
              · rw [if_neg h7] at h
                simp at h

theorem mem_defs_chars (s : String) (hs : s ∈ ALLOWED_DEFS) :
    ∀ c ∈ s.data, isFieldChar c = true := by
  simp only [ALLOWED_DEFS, List.mem_cons, List.not_mem_nil, or_false] at hs
  rcases hs with rfl | rfl | rfl | rfl | rfl | rfl <;> decide

/-- Claim C10 (confirmed): any query whose trimmed form contains a lowercase
ASCII letter is rejected with the invalid-query-format diagnostic and exit
status 1, regardless of catalog contents and output mode: the keyword set is
all-uppercase and every grammar accepts only `A–Z`, `0–9`, `_`, `<`, `>`,
digits and the `.`/`[`/`:`/`]` delimiters. -/
theorem lowercase_query_invalid (cat : RegCatalog) (query : String) (json_out : Bool)
    (h : ∃ c ∈ trimC query.data, isLowerAscii c = true) :
    run_register_query cat query json_out =
      ⟨1, "", "Error: Invalid query format: '" ++ query ++ "'\n"⟩ := by
  obtain ⟨c0, hc0, hlow⟩ := h
  have hmem : ¬((⟨trimC query.data⟩ : String) ∈ ALLOWED_DEFS) := by
    intro hin
    have := mem_defs_chars _ hin c0 hc0
    rw [isFieldChar_not_lower c0 this] at hlow
    exact Bool.false_ne_true hlow
  have hmb : matchDotBracket (trimC query.data) = none := by
    cases hcase : matchDotBracket (trimC query.data) with
    | none => rfl
    | some res =>
      have := matchDotBracket_chars _ _ hcase c0 hc0
      rw [this] at hlow
      exact absurd hlow (by simp)
  have hmo : matchDotOnly (trimC query.data) = none := by
    cases hcase : matchDotOnly (trimC query.data) with
    | none => rfl
    | some res =>
      have := matchDotOnly_chars _ _ hcase c0 hc0
      rw [this] at hlow
      exact absurd hlow (by simp)
  have hbr : matchBracket (trimC query.data) = none := by
    cases hcase : matchBracket (trimC query.data) with
    | none => rfl
    | some res =>
      have := matchBracket_chars _ _ hcase c0 hc0
      rw [this] at hlow
      exact absurd hlow (by simp)
  unfold run_register_query
  rw [if_neg hmem, hmb]
  simp only []
  rw [hmo]
  simp only []
  rw [hbr]

/-- Witness for claim C10 at the query `hcr_el2` against the sample
catalog. -/
theorem lowercase_query_invalid_witness :
    (∃ c ∈ trimC ("hcr_el2" : String).data, isLowerAscii c = true) ∧
    run_register_query sampleCat "hcr_el2" false =
      ⟨1, "", "Error: Invalid query format: 'hcr_el2'\n"⟩ :=
  ⟨by decide, lowercase_query_invalid sampleCat "hcr_el2" false (by decide)⟩

/-! ### Claim C7 -/

theorem dropWhile_eq_self_of_head (p : Char → Bool) (l : List Char)
    (h : ∀ c, l.head? = some c → p c = false) : l.dropWhile p = l := by
  cases l with
  | nil => rfl
  | cons c rest =>
    rw [List.dropWhile_cons, if_neg]
    simp [h c rfl]

theorem trimC_eq_self (l : List Char)
    (hhead : ∀ c, l.head? = some c → isspaceC c = false)
    (hlast : ∀ c, l.getLast? = some c → isspaceC c = false) :
    trimC l = l := by
  unfold trimC
  rw [dropWhile_eq_self_of_head _ _ hhead,
    dropWhile_eq_self_of_head _ _ (fun c hc => hlast c (by rwa [← List.head?_reverse])),
    List.reverse_reverse]

theorem isspace_of_reg (c : Char) (h : isRegChar c = true) : isspaceC c = false := by
  cases hsp : isspaceC c
  · rfl
  · exfalso
    simp only [isspaceC, Bool.or_eq_true, decide_eq_true_eq] at hsp
    rcases hsp with ((((rfl | rfl) | rfl) | rfl) | rfl) | rfl <;> exact absurd h (by decide)

theorem matchDotBracket_none_bracket (reg rest : List Char) (hreg : reg ≠ [])
    (hra : ∀ c ∈ reg, isRegChar c = true) :
    matchDotBracket (reg ++ '[' :: rest) = none := by
  unfold matchDotBracket
  rw [takeClass_build isRegChar reg ('[' :: rest) hreg hra
    (takeWhile_nil_of_head _ _ _ (by decide))]
  simp only []
  rw [show expectChar '.' ('[' :: rest) = none from rfl]

theorem matchDotOnly_none_bracket (reg rest : List Char) (hreg : reg ≠ [])
    (hra : ∀ c ∈ reg, isRegChar c = true) :
    matchDotOnly (reg ++ '[' :: rest) = none := by
  unfold matchDotOnly
  rw [takeClass_build isRegChar reg ('[' :: rest) hreg hra
    (takeWhile_nil_of_head _ _ _ (by decide))]
  simp only []
  rw [show expectChar '.' ('[' :: rest) = none from rfl]

theorem matchBracket_build (reg d1 d2 : List Char)
    (hreg : reg ≠ []) (hra : ∀ c ∈ reg, isRegChar c = true)
    (hd1 : d1 ≠ []) (hd1a : ∀ c ∈ d1, isDigitChar c = true)
    (hd2 : d2 ≠ []) (hd2a : ∀ c ∈ d2, isDigitChar c = true) :
    matchBracket (reg ++ '[' :: d1 ++ ':' :: d2 ++ [']']) =
      some (⟨reg⟩, some (parseNat d1, parseNat d2)) := by
  simp only [List.append_assoc, List.cons_append]
  unfold matchBracket
  rw [takeClass_build isRegChar reg ('[' :: (d1 ++ ':' :: (d2 ++ [']']))) hreg hra
    (takeWhile_nil_of_head _ _ _ (by decide))]
  simp only []
  rw [if_neg (by simp : ¬('[' :: (d1 ++ ':' :: (d2 ++ [']']))) = []), expectChar_build]
  simp only []
  rw [takeClass_build isDigitChar d1 (':' :: (d2 ++ [']'])) hd1 hd1a
    (takeWhile_nil_of_head _ _ _ (by decide))]
  simp only []
  rw [expectChar_build]
  simp only []
  rw [takeClass_build isDigitChar d2 [']'] hd2 hd2a
    (takeWhile_nil_of_head _ _ _ (by decide))]
  simp only []
  rw [expectChar_build]
  rfl

theorem head_ne_space_of_reg (reg rest : List Char) (hreg : reg ≠ [])
    (hra : ∀ c ∈ reg, isRegChar c = true) :
    ∀ c, (reg ++ rest).head? = some c → isspaceC c = false := by
  intro c hc
  cases reg with
  | nil => exact absurd rfl hreg
  | cons c0 reg2 =>
    rw [List.cons_append, List.head?_cons] at hc
    obtain rfl := Option.some.inj hc
    exact isspace_of_reg _ (hra c0 (List.mem_cons_self _ _))

theorem run_bracket_query (cat : RegCatalog) (json_out : Bool) (reg d1 d2 : List Char)
    (hreg : reg ≠ []) (hra : ∀ c ∈ reg, isRegChar c = true)
    (hd1 : d1 ≠ []) (hd1a : ∀ c ∈ d1, isDigitChar c = true)
    (hd2 : d2 ≠ []) (hd2a : ∀ c ∈ d2, isDigitChar c = true) :
    run_register_query_process cat ⟨reg ++ '[' :: d1 ++ ':' :: d2 ++ [']']⟩ json_out =
      if parseNat d1 ≤ stoiMax ∧ parseNat d2 ≤ stoiMax then
        some (bracketRangeBranch cat ⟨reg⟩ (parseNat d1) (parseNat d2) json_out)
      else none := by
  have hmb := matchBracket_build reg d1 d2 hreg hra hd1 hd1a hd2 hd2a
  simp only [List.append_assoc, List.cons_append] at hmb ⊢
  have htrim : trimC (reg ++ '[' :: (d1 ++ ':' :: (d2 ++ [']']))) =
      reg ++ '[' :: (d1 ++ ':' :: (d2 ++ [']'])) := by
    apply trimC_eq_self
    · exact head_ne_space_of_reg reg ('[' :: (d1 ++ ':' :: (d2 ++ [']']))) hreg hra
    · intro c hc
      rw [show reg ++ '[' :: (d1 ++ ':' :: (d2 ++ [']'])) =
          (reg ++ '[' :: d1 ++ ':' :: d2) ++ [']'] by simp,
        List.getLast?_concat] at hc
      obtain rfl := Option.some.inj hc
      rfl
  have hmem : ¬((⟨reg ++ '[' :: (d1 ++ ':' :: (d2 ++ [']']))⟩ : String)
      ∈ ALLOWED_DEFS) := by
    intro hin
    have := mem_defs_chars _ hin '['
      (List.mem_append.mpr (Or.inr (List.mem_cons_self _ _)))
    exact absurd this (by decide)
  unfold run_register_query_process
  rw [show ((⟨reg ++ '[' :: (d1 ++ ':' :: (d2 ++ [']']))⟩ : String)).data =
      reg ++ '[' :: (d1 ++ ':' :: (d2 ++ [']'])) from rfl, htrim]
  simp only []
  rw [if_neg hmem, matchDotBracket_none_bracket reg _ hreg hra]
  simp only []
  rw [matchDotOnly_none_bracket reg _ hreg hra]
  simp only []
  rw [hmb]

theorem bracketRangeBranch_comm (cat : RegCatalog) (reg : String) (high low : Nat)
    (json_out : Bool) :
    bracketRangeBranch cat reg high low json_out =
      bracketRangeBranch cat reg low high json_out := by
  unfold bracketRangeBranch
  rw [Nat.min_comm, Nat.max_comm]

theorem bracketRangeBranch_exit (cat : RegCatalog) (reg : String) (high low : Nat)
    (json_out : Bool) (info : RegisterInfo) (hlook : lookupReg cat reg = some info) :
    ((bracketRangeBranch cat reg high low json_out).exitCode = 1 ↔
      info.fields.filter (overlapTest (min high low) (max high low)) = []) := by
  unfold bracketRangeBranch
  rw [hlook]
  simp only []
  cases hf : info.fields.filter (overlapTest (min high low) (max high low)) with
  | nil => simp
  | cons f0 fs =>
    simp only []
    constructor
    · intro hexit
      exfalso
      by_cases hss : min high low = max high low <;> by_cases hj : json_out <;>
        simp [hss, hj] at hexit
    · intro hcontr
      exact absurd hcontr (by simp)

theorem bracketRangeBranch_range_lists_all (cat : RegCatalog) (reg : String)
    (high low : Nat) (info : RegisterInfo) (f0 : RegisterField) (fs : List RegisterField)
    (hlook : lookupReg cat reg = some info)
    (hf : info.fields.filter (overlapTest (min high low) (max high low)) = f0 :: fs)
    (hne : min high low ≠ max high low) :
    bracketRangeBranch cat reg high low false =
      ⟨0, "Register: " ++ reg ++ "\n" ++
          "Bit Range: [" ++ decStr (max high low) ++ ":" ++ decStr (min high low) ++ "]\n" ++
          String.join ((f0 :: fs).map fun f =>
            "  " ++ f.field_position ++ "  " ++ f.field_name ++ "\n"), ""⟩ := by
  unfold bracketRangeBranch
  rw [hlook]
  simp only []
  rw [hf]
  simp only []
  rw [if_neg hne, if_neg (by decide : ¬(false = true))]

theorem bracketRangeBranch_single_bit (cat : RegCatalog) (reg : String)
    (high low : Nat) (info : RegisterInfo) (f0 : RegisterField) (fs : List RegisterField)
    (hlook : lookupReg cat reg = some info)
    (hf : info.fields.filter (overlapTest (min high low) (max high low)) = f0 :: fs)
    (heq : min high low = max high low) :
    bracketRangeBranch cat reg high low false =
      ⟨0, "Register: " ++ reg ++ "\n" ++
          "Bit Position: [" ++ decStr (min high low) ++ "]\n" ++
          "Field Name: " ++ f0.field_name ++ "\n", ""⟩ := by
  unfold bracketRangeBranch
  rw [hlook]
  simp only []
  rw [hf]
  simp only []
  rw [if_pos heq, if_neg (by decide : ¬(false = true))]

/-- Claim C7 (corrected): for endpoint values within `int` range (above
`INT_MAX`, `R[hi:lo]` and `R[lo:hi]` still behave identically — both abort),
the bit-range query `R[hi:lo]` returns exactly the same result as `R[lo:hi]`
(endpoint normalization via min/max), completes without aborting, and for a
known register fails (exit status 1) precisely when no field satisfies the
overlap test `field.lsb ≤ max ∧ field.msb ≥ min`; when the normalized
endpoints differ, the listing contains every field selected by the overlap
test, but when they coincide (hi = lo), only the first selected field is
reported. -/
theorem bit_range_query_overlap_behaviour (cat : RegCatalog) (json_out : Bool)
    (reg d1 d2 : List Char) (info : RegisterInfo)
    (hreg : reg ≠ []) (hra : ∀ c ∈ reg, isRegChar c = true)
    (hd1 : d1 ≠ []) (hd1a : ∀ c ∈ d1, isDigitChar c = true)
    (hd2 : d2 ≠ []) (hd2a : ∀ c ∈ d2, isDigitChar c = true)
    (hb1 : parseNat d1 ≤ stoiMax) (hb2 : parseNat d2 ≤ stoiMax)
    (hlook : lookupReg cat ⟨reg⟩ = some info) :
    run_register_query_process cat ⟨reg ++ '[' :: d1 ++ ':' :: d2 ++ [']']⟩ json_out =
      run_register_query_process cat ⟨reg ++ '[' :: d2 ++ ':' :: d1 ++ [']']⟩ json_out ∧
    run_register_query_process cat ⟨reg ++ '[' :: d1 ++ ':' :: d2 ++ [']']⟩ json_out =
      some (bracketRangeBranch cat ⟨reg⟩ (parseNat d1) (parseNat d2) json_out) ∧
    ((bracketRangeBranch cat ⟨reg⟩ (parseNat d1) (parseNat d2) json_out).exitCode = 1 ↔
      info.fields.filter (overlapTest (min (parseNat d1) (parseNat d2))
        (max (parseNat d1) (parseNat d2))) = []) ∧
    (∀ f0 fs, info.fields.filter (overlapTest (min (parseNat d1) (parseNat d2))
        (max (parseNat d1) (parseNat d2))) = f0 :: fs →
      min (parseNat d1) (parseNat d2) ≠ max (parseNat d1) (parseNat d2) →
      bracketRangeBranch cat ⟨reg⟩ (parseNat d1) (parseNat d2) false =
        ⟨0, "Register: " ++ (⟨reg⟩ : String) ++ "\n" ++
            "Bit Range: [" ++ decStr (max (parseNat d1) (parseNat d2)) ++ ":" ++
            decStr (min (parseNat d1) (parseNat d2)) ++ "]\n" ++
            String.join ((f0 :: fs).map fun f =>
              "  " ++ f.field_position ++ "  " ++ f.field_name ++ "\n"), ""⟩) ∧
    (∀ f0 fs, info.fields.filter (overlapTest (min (parseNat d1) (parseNat d2))
        (max (parseNat d1) (parseNat d2))) = f0 :: fs →
      min (parseNat d1) (parseNat d2) = max (parseNat d1) (parseNat d2) →
      bracketRangeBranch cat ⟨reg⟩ (parseNat d1) (parseNat d2) false =
        ⟨0, "Register: " ++ (⟨reg⟩ : String) ++ "\n" ++
            "Bit Position: [" ++ decStr (min (parseNat d1) (parseNat d2)) ++ "]\n" ++
            "Field Name: " ++ f0.field_name ++ "\n", ""⟩) := by
  refine ⟨?_, ?_, ?_, ?_, ?_⟩
  · rw [run_bracket_query cat json_out reg d1 d2 hreg hra hd1 hd1a hd2 hd2a,
      run_bracket_query cat json_out reg d2 d1 hreg hra hd2 hd2a hd1 hd1a,
      if_pos ⟨hb1, hb2⟩, if_pos ⟨hb2, hb1⟩, bracketRangeBranch_comm]
  · rw [run_bracket_query cat json_out reg d1 d2 hreg hra hd1 hd1a hd2 hd2a,
      if_pos ⟨hb1, hb2⟩]
  · exact bracketRangeBranch_exit cat ⟨reg⟩ (parseNat d1) (parseNat d2) json_out info hlook
  · intro f0 fs hf hne
    exact bracketRangeBranch_range_lists_all cat ⟨reg⟩ (parseNat d1) (parseNat d2)
      info f0 fs hlook hf hne
  · intro f0 fs hf heq
    exact bracketRangeBranch_single_bit cat ⟨reg⟩ (parseNat d1) (parseNat d2)
      info f0 fs hlook hf heq

/-- Witness for the corrected claim C7: `HCR_EL2[1:0]` on the sample catalog,
with both endpoints within `int` range; the process completes with the
bit-range branch's result. -/
theorem bit_range_query_overlap_behaviour_witness :
    (parseNat ['1'] ≤ stoiMax ∧ parseNat ['0'] ≤ stoiMax ∧
      lookupReg sampleCat ⟨("HCR_EL2" : String).data⟩ =
        some (sampleCat.registers.get ⟨0, by decide⟩).2) ∧
    run_register_query_process sampleCat
        ⟨("HCR_EL2" : String).data ++ '[' :: ['1'] ++ ':' :: ['0'] ++ [']']⟩ false =
      some (bracketRangeBranch sampleCat ⟨("HCR_EL2" : String).data⟩
        (parseNat ['1']) (parseNat ['0']) false) :=
  ⟨⟨by decide, by decide, by decide⟩,
    (bit_range_query_overlap_behaviour sampleCat false ("HCR_EL2" : String).data
      ['1'] ['0'] (sampleCat.registers.get ⟨0, by decide⟩).2
      (by decide) (by decide) (by decide) (by decide) (by decide) (by decide)
      (by decide) (by decide) (by decide)).2.1⟩

/-! ### Claim C5 (amended) -/

theorem matchDotBracket_build (reg fld d1 d2 : List Char)
    (hreg : reg ≠ []) (hra : ∀ c ∈ reg, isRegChar c = true)
    (hfld : fld ≠ []) (hfa : ∀ c ∈ fld, isFieldChar c = true)
    (hd1 : d1 ≠ []) (hd1a : ∀ c ∈ d1, isDigitChar c = true)
    (hd2 : d2 ≠ []) (hd2a : ∀ c ∈ d2, isDigitChar c = true) :
    matchDotBracket (reg ++ '.' :: fld ++ '[' :: d1 ++ ':' :: d2 ++ [']']) =
      some (⟨reg⟩, ⟨fld⟩, parseNat d1, parseNat d2) := by
  simp only [List.append_assoc, List.cons_append]
  unfold matchDotBracket
  rw [takeClass_build isRegChar reg ('.' :: (fld ++ '[' :: (d1 ++ ':' :: (d2 ++ [']']))))
    hreg hra (takeWhile_nil_of_head _ _ _ (by decide))]
  simp only []
  rw [expectChar_build]
  simp only []
  rw [takeClass_build isFieldChar fld ('[' :: (d1 ++ ':' :: (d2 ++ [']']))) hfld hfa
    (takeWhile_nil_of_head _ _ _ (by decide))]
  simp only []
  rw [expectChar_build]
  simp only []
  rw [takeClass_build isDigitChar d1 (':' :: (d2 ++ [']'])) hd1 hd1a
    (takeWhile_nil_of_head _ _ _ (by decide))]
  simp only []
  rw [expectChar_build]
  simp only []
  rw [takeClass_build isDigitChar d2 [']'] hd2 hd2a
    (takeWhile_nil_of_head _ _ _ (by decide))]
  simp only []
  rw [expectChar_build]
  rfl

theorem run_dot_bracket_query (cat : RegCatalog) (json_out : Bool)
    (reg fld d1 d2 : List Char)
    (hreg : reg ≠ []) (hra : ∀ c ∈ reg, isRegChar c = true)
    (hfld : fld ≠ []) (hfa : ∀ c ∈ fld, isFieldChar c = true)
    (hd1 : d1 ≠ []) (hd1a : ∀ c ∈ d1, isDigitChar c = true)
    (hd2 : d2 ≠ []) (hd2a : ∀ c ∈ d2, isDigitChar c = true) :
    run_register_query_process cat
        ⟨reg ++ '.' :: fld ++ '[' :: d1 ++ ':' :: d2 ++ [']']⟩ json_out =
      if parseNat d1 ≤ stoiMax ∧ parseNat d2 ≤ stoiMax then
        some (dotBracketBranch cat ⟨reg⟩ ⟨fld⟩ (parseNat d1) (parseNat d2) json_out)
      else none := by
  have hmb := matchDotBracket_build reg fld d1 d2 hreg hra hfld hfa hd1 hd1a hd2 hd2a
  simp only [List.append_assoc, List.cons_append] at hmb ⊢
  have htrim : trimC (reg ++ '.' :: (fld ++ '[' :: (d1 ++ ':' :: (d2 ++ [']'])))) =
      reg ++ '.' :: (fld ++ '[' :: (d1 ++ ':' :: (d2 ++ [']']))) := by
    apply trimC_eq_self
    · exact head_ne_space_of_reg reg _ hreg hra
    · intro c hc
      rw [show reg ++ '.' :: (fld ++ '[' :: (d1 ++ ':' :: (d2 ++ [']']))) =
          (reg ++ '.' :: fld ++ '[' :: d1 ++ ':' :: d2) ++ [']'] by simp,
        List.getLast?_concat] at hc
      obtain rfl := Option.some.inj hc
      rfl
  have hmem : ¬((⟨reg ++ '.' :: (fld ++ '[' :: (d1 ++ ':' :: (d2 ++ [']'])))⟩ : String)
      ∈ ALLOWED_DEFS) := by
    intro hin
    have := mem_defs_chars _ hin '.'
      (List.mem_append.mpr (Or.inr (List.mem_cons_self _ _)))
    exact absurd this (by decide)
  unfold run_register_query_process
  rw [show ((⟨reg ++ '.' :: (fld ++ '[' :: (d1 ++ ':' :: (d2 ++ [']'])))⟩ : String)).data =
      reg ++ '.' :: (fld ++ '[' :: (d1 ++ ':' :: (d2 ++ [']']))) from rfl, htrim]
  simp only []
  rw [if_neg hmem, hmb]

theorem dotBracketBranch_combined_error (cat : RegCatalog) (reg fld : String)
    (high low : Nat) (json_out : Bool) (info : RegisterInfo)
    (hlook : lookupReg cat reg = some info)
    (hnone : ∀ f ∈ info.fields, ¬(f.field_name = fld ∧
      f.field_msb = max high low ∧ f.field_lsb = min high low)) :
    dotBracketBranch cat reg fld high low json_out =
      ⟨1, "", "Error: Field '" ++ fld ++ "' exists but not at bit range [" ++
        decStr (max high low) ++ ":" ++ decStr (min high low) ++ "] or not found.\n"⟩ := by
  unfold dotBracketBranch
  rw [hlook]
  simp only []
  rw [List.find?_eq_none.mpr]
  intro f hf
  have := hnone f hf
  simp only [Bool.and_eq_true, beq_iff_eq]
  intro hcontr
  exact this ⟨hcontr.1.1, hcontr.1.2, hcontr.2⟩

/-- Claim C5 (amended): on a verified field-range query `REG.FIELD[hi:lo]`
for a known register, with both endpoint values within `int` range (above
`INT_MAX` the process aborts through an uncaught `std::stoi`
`std::out_of_range` instead of reporting), whenever no field of the register
has exactly the name `FIELD` and the range `(max hi lo, min hi lo)` —
whether the name exists at a different range or does not exist at all — the
process completes with exit status 1 and the single combined diagnostic
`Field 'FIELD' exists but not at bit range [hi:lo] or not found.`; the two
failure causes are not separately identifiable. -/
theorem field_range_lookup_combined_error (cat : RegCatalog) (json_out : Bool)
    (reg fld d1 d2 : List Char) (info : RegisterInfo)
    (hreg : reg ≠ []) (hra : ∀ c ∈ reg, isRegChar c = true)
    (hfld : fld ≠ []) (hfa : ∀ c ∈ fld, isFieldChar c = true)
    (hd1 : d1 ≠ []) (hd1a : ∀ c ∈ d1, isDigitChar c = true)
    (hd2 : d2 ≠ []) (hd2a : ∀ c ∈ d2, isDigitChar c = true)
    (hb1 : parseNat d1 ≤ stoiMax) (hb2 : parseNat d2 ≤ stoiMax)
    (hlook : lookupReg cat ⟨reg⟩ = some info)
    (hnone : ∀ f ∈ info.fields, ¬(f.field_name = ⟨fld⟩ ∧
      f.field_msb = max (parseNat d1) (parseNat d2) ∧
      f.field_lsb = min (parseNat d1) (parseNat d2))) :
    run_register_query_process cat
        ⟨reg ++ '.' :: fld ++ '[' :: d1 ++ ':' :: d2 ++ [']']⟩ json_out =
      some ⟨1, "", "Error: Field '" ++ ⟨fld⟩ ++ "' exists but not at bit range [" ++
        decStr (max (parseNat d1) (parseNat d2)) ++ ":" ++
        decStr (min (parseNat d1) (parseNat d2)) ++ "] or not found.\n"⟩ := by
  rw [run_dot_bracket_query cat json_out reg fld d1 d2 hreg hra hfld hfa hd1 hd1a hd2 hd2a,
    if_pos ⟨hb1, hb2⟩,
    dotBracketBranch_combined_error cat ⟨reg⟩ ⟨fld⟩ (parseNat d1) (parseNat d2) json_out
      info hlook hnone]

/-- Witness for the amended claim C5 at `R.B[2:2]` on the range-mismatch
catalog. -/
theorem field_range_lookup_combined_error_witness :
    (parseNat ['2'] ≤ stoiMax ∧
      lookupReg catRangeMismatch ⟨['R']⟩ =
        some (catRangeMismatch.registers.get ⟨0, by decide⟩).2) ∧
    run_register_query_process catRangeMismatch
        ⟨['R'] ++ '.' :: ['B'] ++ '[' :: ['2'] ++ ':' :: ['2'] ++ [']']⟩ false =
      some ⟨1, "", "Error: Field '" ++ ⟨['B']⟩ ++ "' exists but not at bit range [" ++
        decStr (max (parseNat ['2']) (parseNat ['2'])) ++ ":" ++
        decStr (min (parseNat ['2']) (parseNat ['2'])) ++ "] or not found.\n"⟩ :=
  ⟨⟨by decide, by decide⟩,
    field_range_lookup_combined_error catRangeMismatch false ['R'] ['B'] ['2'] ['2']
      (catRangeMismatch.registers.get ⟨0, by decide⟩).2
      (by decide) (by decide) (by decide) (by decide) (by decide) (by decide)
      (by decide) (by decide) (by decide) (by decide) (by decide) (by decide)⟩

/-! ### Claim C6 (amended) -/

/-- Error discipline of the register tool: either success with exit status 0
and a clean error channel, or failure with exit status 1, no regular output,
and a nonempty diagnostic on the error channel. -/
def errorDiscipline (r : ExecResult) : Prop :=
  (r.exitCode = 0 ∧ r.stderr = "") ∨ (r.exitCode = 1 ∧ r.stdout = "" ∧ r.stderr ≠ "")

theorem strNeEmptyLeft (s t : String) (h : s ≠ "") : s ++ t ≠ "" := by
  intro heq
  apply h
  have := congrArg String.data heq
  rw [String.data_append] at this
  obtain ⟨h1, _⟩ := List.append_eq_nil.mp this
  apply String.ext
  exact h1

theorem errorDiscipline_fielddef (cat : RegCatalog) (d : String) (json_out : Bool) :
    errorDiscipline (run_fielddef_query cat d json_out) := by
  unfold run_fielddef_query errorDiscipline
  repeat' split
  all_goals first
    | exact Or.inl ⟨rfl, rfl⟩
    | exact Or.inr ⟨rfl, rfl, by repeat first | decide | apply strNeEmptyLeft⟩

theorem errorDiscipline_dotBracket (cat : RegCatalog) (reg fld : String)
    (high low : Nat) (json_out : Bool) :
    errorDiscipline (dotBracketBranch cat reg fld high low json_out) := by
  unfold dotBracketBranch errorDiscipline
  simp only []
  repeat' split
  all_goals first
    | exact Or.inl ⟨rfl, rfl⟩
    | exact Or.inr ⟨rfl, rfl, by repeat first | decide | apply strNeEmptyLeft⟩

theorem errorDiscipline_dotOnly (cat : RegCatalog) (reg fld : String) (json_out : Bool) :
    errorDiscipline (dotOnlyBranch cat reg fld json_out) := by
  unfold dotOnlyBranch errorDiscipline
  repeat' split
  all_goals first
    | exact Or.inl ⟨rfl, rfl⟩
    | exact Or.inr ⟨rfl, rfl, by repeat first | decide | apply strNeEmptyLeft⟩

theorem errorDiscipline_bracketRange (cat : RegCatalog) (reg : String)
    (high low : Nat) (json_out : Bool) :
    errorDiscipline (bracketRangeBranch cat reg high low json_out) := by
  unfold bracketRangeBranch errorDiscipline
  simp only []
  repeat' split
  all_goals first
    | exact Or.inl ⟨rfl, rfl⟩
    | exact Or.inr ⟨rfl, rfl, by repeat first | decide | apply strNeEmptyLeft⟩

theorem errorDiscipline_wholeRegister (cat : RegCatalog) (reg : String) (json_out : Bool) :
    errorDiscipline (wholeRegisterBranch cat reg json_out) := by
  unfold wholeRegisterBranch errorDiscipline
  repeat' split
  all_goals first
    | exact Or.inl ⟨rfl, rfl⟩
    | exact Or.inr ⟨rfl, rfl, by repeat first | decide | apply strNeEmptyLeft⟩

theorem errorDiscipline_process (cat : RegCatalog) (query : String)
    (json_out : Bool) (r : ExecResult)
    (h : run_register_query_process cat query json_out = some r) :
    errorDiscipline r := by
  unfold run_register_query_process at h
  simp only [] at h
  repeat' split at h
  all_goals first
    | exact Option.noConfusion h
    | (obtain rfl := Option.some.inj h
       first
        | apply errorDiscipline_fielddef
        | apply errorDiscipline_dotBracket
        | apply errorDiscipline_dotOnly
        | apply errorDiscipline_bracketRange
        | apply errorDiscipline_wholeRegister
        | exact Or.inr ⟨rfl, rfl, by repeat first | decide | apply strNeEmptyLeft⟩)

/-- Claim C6 (amended): a decode or register query producing at least one
result completes with status 0; every handled §7 error kind on the register
side keeps the contract — whenever the register process completes (queries
whose matched bit indices exceed `INT_MAX` abort through an uncaught
`std::stoi` `std::out_of_range` instead of reporting a §7 error), its result
is exit 0 with a clean error channel or exit 1 with no regular output and a
nonempty diagnostic — and so does `OpcodeFormatError` (exit 1 with its one
diagnostic); but `OpcodeNoMatch` does not: once the opcode literal parses,
the decoder completes with status 0 even when zero patterns match and the
no-match diagnostic is emitted on the error channel. -/
theorem exit_contract_amended (arrays : List (List EncodingPattern))
    (opcode_str bad_str : String) (v : Nat) (rest : List String)
    (cat : RegCatalog) (query : String) (json_out : Bool) (r : ExecResult)
    (h : parse_opcode opcode_str = .ok v)
    (hbad : parse_opcode bad_str = .prefixError)
    (hr : run_register_query_process cat query json_out = some r) :
    isa_main arrays ("--op" :: opcode_str :: rest) =
      some ⟨0, (query_by_opcode arrays v).1, (query_by_opcode arrays v).2⟩ ∧
    isa_main arrays ("--op" :: bad_str :: rest) =
      some ⟨1, "", "Error: Opcode must start with 0x (hex) or 0b (binary)\n"⟩ ∧
    errorDiscipline r := by
  refine ⟨?_, ?_, errorDiscipline_process cat query json_out r hr⟩
  · unfold isa_main
    simp only []
    rw [h]
    rfl
  · unfold isa_main
    simp only []
    rw [hbad]
    rfl

/-- Witness for the amended claim C6: opcode `0x0` against a catalog whose
single pattern does not match, the bad-prefix literal `1`, and the completed
whole-register query `HCR_EL2`. -/
theorem exit_contract_amended_witness :
    (parse_opcode "0x0" = .ok 0 ∧ parse_opcode "1" = .prefixError ∧
      run_register_query_process sampleCat "HCR_EL2" false =
        some (run_register_query sampleCat "HCR_EL2" false)) ∧
    (isa_main [[unmatchableEnc]] ("--op" :: "0x0" :: []) =
      some ⟨0, (query_by_opcode [[unmatchableEnc]] 0).1,
        (query_by_opcode [[unmatchableEnc]] 0).2⟩ ∧
    isa_main [[unmatchableEnc]] ("--op" :: "1" :: []) =
      some ⟨1, "", "Error: Opcode must start with 0x (hex) or 0b (binary)\n"⟩ ∧
    errorDiscipline (run_register_query sampleCat "HCR_EL2" false)) :=
  ⟨⟨by decide, by decide, by decide⟩,
    exit_contract_amended [[unmatchableEnc]] "0x0" "1" 0 [] sampleCat "HCR_EL2" false
      (run_register_query sampleCat "HCR_EL2" false)
      (by decide) (by decide) (by decide)⟩

end AArch64DB
